import Mathlib

/-!
Verification development for the Kolibri node (C sources under src/).

The C modules are shallowly embedded as executable Lean definitions:

* `src/backend/src/decimal.c` — the byte/digit and signed-integer codecs
  (`kolibri_potok_cifr` and friends).
* `src/backend/src/formula.c` — the formula-evolution pool
  (`kf_pool_init`, `kf_pool_tick`, `kf_pool_add_example`,
  `kf_pool_add_association`, `kf_pool_feedback`, `kf_formula_apply`).
* `src/backend/src/net.c` — the wire-message codec (`kn_message_decode`).
* `src/backend/src/genome.c` — the hash-chained HMAC ledger
  (`kg_append`, `kg_verify_file`, `kg_replay`), modelled down to the
  byte-exact file format, the `fgets` line splitting and the `sscanf`
  field parsing that `razobrat_stroku` performs.

Machine integers are modelled as `Nat`/`Int` with explicit `% 2 ^ w`
where the C code can wrap; `double` scalars (fitness, feedback) are
modelled as `ℚ` — every concrete double appearing in the claims
(0, ±1, small sums with explicit clamps) is exactly representable, and
the clamp/bound properties proved here do not depend on rounding.
Fallible C functions (returning `-1`/`0` codes) are modelled with
`Option`/`Except`.

External collaborators that are not part of this repository's sources
(OpenSSL's HMAC, libc's `qsort` tie order) are taken as parameters or
modelled at the level the spec fixes them; repository code whose header
is not present under src/ (the PRNG `k_rng_*`) is modelled from the
spec, as marked in the corresponding doc comments.
-/

/-! ## Digit-stream codec (src/backend/src/decimal.c) -/

/-- The digit stream `kolibri_potok_cifr` from decimal.h.  The C struct
holds a raw buffer plus `dlina` (number of valid digits); only the
first `dlina` cells are ever read, so the buffer is modelled as the
list of valid digits (`cifry`, with `dlina = cifry.length`) together
with the capacity `emkost` and the read cursor `poziciya`. -/
structure kolibri_potok_cifr where
  cifry : List Nat
  emkost : Nat
  poziciya : Nat
  deriving Repr, DecidableEq

/-- `kolibri_potok_cifr_init`: fresh stream over a buffer of capacity
`emkost`. -/
def kolibri_potok_cifr_init (emkost : Nat) : kolibri_potok_cifr :=
  ⟨[], emkost, 0⟩

/-- `kolibri_potok_cifr_push`: append one digit; fails on a non-digit
or when the stream is full. -/
def kolibri_potok_cifr_push (potok : kolibri_potok_cifr) (cifra : Nat) :
    Option kolibri_potok_cifr :=
  if cifra > 9 then none
  else if potok.cifry.length ≥ potok.emkost then none
  else some { potok with cifry := potok.cifry ++ [cifra] }

/-- `zakodirovat_bajt`: one byte becomes three digits
(hundreds, tens, ones). -/
def zakodirovat_bajt (potok : kolibri_potok_cifr) (znachenie : Nat) :
    Option kolibri_potok_cifr := do
  let p1 ← kolibri_potok_cifr_push potok (znachenie / 100)
  let p2 ← kolibri_potok_cifr_push p1 (znachenie / 10 % 10)
  kolibri_potok_cifr_push p2 (znachenie % 10)

/-- `kolibri_transducirovat_utf8`: encode a byte sequence into the
digit stream, three digits per byte. -/
def kolibri_transducirovat_utf8 (potok : kolibri_potok_cifr)
    (bajty : List Nat) : Option kolibri_potok_cifr :=
  bajty.foldlM zakodirovat_bajt potok

/-- Helper for `kolibri_izluchit_utf8`: fold each group of three digits
back into a byte. -/
def kolibri_sobrat_bajty : List Nat → List Nat
  | a :: b :: c :: rest => (a * 100 + b * 10 + c) :: kolibri_sobrat_bajty rest
  | _ => []

/-- `kolibri_izluchit_utf8`: decode the digit stream back into bytes;
fails when the digit count is not a multiple of three or the output
buffer (`vyhod_dlina` bytes) is too small. -/
def kolibri_izluchit_utf8 (potok : kolibri_potok_cifr)
    (vyhod_dlina : Nat) : Option (List Nat) :=
  if potok.cifry.length % 3 ≠ 0 then none
  else if vyhod_dlina < potok.cifry.length / 3 then none
  else some (kolibri_sobrat_bajty potok.cifry)

/-- `kolibri_absolyut`: magnitude of a signed 64-bit value (the C code
computes it without overflow even at `INT64_MIN`). -/
def kolibri_absolyut (znachenie : Int) : Nat := znachenie.natAbs

/-- `kolibri_podschitat_cifry`: number of decimal digits of a value
(the do/while loop counts at least one digit).  The fuel argument —
the value itself always suffices, each step divides by 10 — keeps the
recursion structural (kernel-reducible). -/
def kolibri_podschitat_cifry_aux : Nat → Nat → Nat
  | 0, _ => 1
  | gorjuchee + 1, v =>
    if v < 10 then 1 else 1 + kolibri_podschitat_cifry_aux gorjuchee (v / 10)

def kolibri_podschitat_cifry (velichina : Nat) : Nat :=
  kolibri_podschitat_cifry_aux velichina velichina

theorem kolibri_podschitat_cifry_aux_nezavisima (f1 : Nat) :
    ∀ f2 v, v ≤ f1 → v ≤ f2 →
    kolibri_podschitat_cifry_aux f1 v = kolibri_podschitat_cifry_aux f2 v := by
  induction f1 with
  | zero =>
    intro f2 v h1 h2
    have hv : v = 0 := by omega
    subst hv
    cases f2 with
    | zero => rfl
    | succ f2 => simp [kolibri_podschitat_cifry_aux]
  | succ f1 ih =>
    intro f2 v h1 h2
    cases f2 with
    | zero =>
      have hv : v = 0 := by omega
      subst hv
      simp [kolibri_podschitat_cifry_aux]
    | succ f2 =>
      simp only [kolibri_podschitat_cifry_aux]
      split
      · rfl
      · rename_i hv
        have hlt := Nat.div_lt_self (show 0 < v by omega) (show 1 < 10 by omega)
        rw [ih f2 (v / 10) (by omega) (by omega)]

/-- The defining equation of the digit counter. -/
theorem kolibri_podschitat_cifry_eq (v : Nat) :
    kolibri_podschitat_cifry v =
      if v < 10 then 1 else 1 + kolibri_podschitat_cifry (v / 10) := by
  cases v with
  | zero => rfl
  | succ w =>
    show kolibri_podschitat_cifry_aux (w + 1) (w + 1) = _
    simp only [kolibri_podschitat_cifry_aux]
    split
    · rfl
    · rename_i hv
      have hlt := Nat.div_lt_self (show 0 < w + 1 by omega) (show 1 < 10 by omega)
      rw [kolibri_podschitat_cifry_aux_nezavisima w ((w + 1) / 10) ((w + 1) / 10)
        (by omega) le_rfl]
      rfl

/-- Most-significant-first decimal digits of `n`, padded/truncated to
`len` digits — the layout the `lokalnye` array receives in
`kolibri_potok_cifr_zapisat_chislo`. -/
def cifry_starshie (n : Nat) : Nat → List Nat
  | 0 => []
  | len + 1 => n / 10 ^ len % 10 :: cifry_starshie n len

/-- `kolibri_potok_cifr_zapisat_chislo`: serialize a signed integer as
two length digits, one sign digit and the magnitude digits. -/
def kolibri_potok_cifr_zapisat_chislo (potok : kolibri_potok_cifr)
    (znachenie : Int) : Option kolibri_potok_cifr :=
  let modul := kolibri_absolyut znachenie
  let chislo_cifr := kolibri_podschitat_cifry modul
  if chislo_cifr > 99 then none
  else if potok.cifry.length + chislo_cifr + 3 > potok.emkost then none
  else
    let znak : Nat := if znachenie < 0 then 1 else 0
    some { potok with
      cifry := potok.cifry ++
        [chislo_cifr / 10 % 10, chislo_cifr % 10, znak] ++
        cifry_starshie modul chislo_cifr }

/-- The magnitude-reading loop of `kolibri_potok_cifr_schitat_chislo`,
including its per-step `UINT64_MAX` overflow guard. -/
def kolibri_schitat_modul (cifry : List Nat) : Option Nat :=
  cifry.foldlM
    (fun modul cifra =>
      if cifra > 9 then none
      else if modul > (2 ^ 64 - 1 - cifra) / 10 then none
      else some (modul * 10 + cifra))
    0

/-- `kolibri_potok_cifr_schitat_chislo`: read back a serialized signed
integer from the current cursor.  The C function indexes
`cifry[poziciya ..]`; that suffix is matched here, so the C guards
"nothing left" (`rc 1`), "fewer than 3 digits" and
"`dostupno < chislo_cifr + 3`" become the match fallthrough and the
`ostatok.length` guard.  The C `-1`/`1` failure codes are both
collapsed into `none`; success returns the value and the advanced
stream. -/
def kolibri_potok_cifr_schitat_chislo (potok : kolibri_potok_cifr) :
    Option (Int × kolibri_potok_cifr) :=
  match potok.cifry.drop potok.poziciya with
  | dlina_desyatki :: dlina_edinicy :: znak :: ostatok =>
    if dlina_desyatki > 9 ∨ dlina_edinicy > 9 ∨ znak > 1 then none
    else
      let chislo_cifr := dlina_desyatki * 10 + dlina_edinicy
      if chislo_cifr = 0 ∨ chislo_cifr > 19 then none
      else if ostatok.length < chislo_cifr then none
      else do
        let modul ← kolibri_schitat_modul (ostatok.take chislo_cifr)
        let znachenie ←
          if znak = 0 then
            if modul > 2 ^ 63 - 1 then none else some (Int.ofNat modul)
          else
            if modul > 2 ^ 63 then none
            else some (-(Int.ofNat modul))
        some (znachenie, { potok with poziciya := potok.poziciya + 3 + chislo_cifr })
  | _ => none

/-! ### Round-trip facts for the digit codec -/

/-- The digit string `kolibri_transducirovat_utf8` produces: three
digits (hundreds, tens, ones) per input byte. -/
def kodirovka : List Nat → List Nat
  | [] => []
  | b :: rest => b / 100 :: b / 10 % 10 :: b % 10 :: kodirovka rest

theorem kodirovka_length (bajty : List Nat) :
    (kodirovka bajty).length = 3 * bajty.length := by
  induction bajty with
  | nil => simp [kodirovka]
  | cons b rest ih => simp [kodirovka, ih]; omega

theorem kolibri_potok_cifr_push_ok (p : kolibri_potok_cifr) (c : Nat)
    (hc : c ≤ 9) (hroom : p.cifry.length < p.emkost) :
    kolibri_potok_cifr_push p c =
      some { p with cifry := p.cifry ++ [c] } := by
  unfold kolibri_potok_cifr_push
  rw [if_neg (by omega), if_neg (by omega)]

theorem kolibri_transducirovat_utf8_ok (bajty : List Nat) :
    ∀ p : kolibri_potok_cifr, (∀ b ∈ bajty, b < 1000) →
    p.cifry.length + 3 * bajty.length ≤ p.emkost →
    kolibri_transducirovat_utf8 p bajty =
      some ⟨p.cifry ++ kodirovka bajty, p.emkost, p.poziciya⟩ := by
  induction bajty with
  | nil =>
    intro p _ _
    simp [kolibri_transducirovat_utf8, kodirovka]
  | cons b rest ih =>
    intro p hlt hcap
    have hb : b < 1000 := hlt b (by simp)
    simp only [kolibri_transducirovat_utf8, List.foldlM_cons]
    have hlen : p.cifry.length + 3 * (b :: rest).length ≤ p.emkost := hcap
    simp only [List.length_cons] at hlen
    rw [show zakodirovat_bajt p b =
        some ⟨p.cifry ++ [b / 100, b / 10 % 10, b % 10], p.emkost, p.poziciya⟩ by
      unfold zakodirovat_bajt
      rw [kolibri_potok_cifr_push_ok p (b / 100) (by omega) (by omega)]
      simp only [Option.bind_eq_bind, Option.some_bind]
      rw [kolibri_potok_cifr_push_ok _ (b / 10 % 10) (by omega)
        (by simp; omega)]
      simp only [Option.some_bind]
      rw [kolibri_potok_cifr_push_ok _ (b % 10) (by omega)
        (by simp; omega)]
      simp]
    have := ih ⟨p.cifry ++ [b / 100, b / 10 % 10, b % 10], p.emkost, p.poziciya⟩
      (fun x hx => hlt x (by simp [hx]))
      (by simp; omega)
    simpa [kolibri_transducirovat_utf8, kodirovka] using this

theorem kolibri_sobrat_bajty_kodirovka (bajty : List Nat)
    (h : ∀ b ∈ bajty, b < 1000) :
    kolibri_sobrat_bajty (kodirovka bajty) = bajty := by
  induction bajty with
  | nil => simp [kodirovka, kolibri_sobrat_bajty]
  | cons b rest ih =>
    have hb : b < 1000 := h b (by simp)
    simp only [kodirovka, kolibri_sobrat_bajty]
    rw [ih (fun x hx => h x (by simp [hx]))]
    congr 1
    omega

theorem kolibri_podschitat_cifry_pos (v : Nat) :
    1 ≤ kolibri_podschitat_cifry v := by
  rw [kolibri_podschitat_cifry_eq]
  split <;> omega

theorem kolibri_podschitat_cifry_le (v k : Nat) (hk : 1 ≤ k)
    (h : v < 10 ^ k) : kolibri_podschitat_cifry v ≤ k := by
  induction v using Nat.strong_induction_on generalizing k with
  | _ v ih =>
    rw [kolibri_podschitat_cifry_eq]
    split
    · omega
    · rename_i hv
      have hk2 : 2 ≤ k := by
        by_contra hlt
        interval_cases k <;> omega
      have hdiv : v / 10 < 10 ^ (k - 1) := by
        have hpow : 10 ^ k = 10 ^ (k - 1) * 10 := by
          rw [← pow_succ]
          congr 1
          omega
        rw [hpow] at h
        omega
      have := ih (v / 10) (Nat.div_lt_self (by omega) (by omega)) (k - 1)
        (by omega) hdiv
      omega

theorem kolibri_lt_pow_podschitat (v : Nat) :
    v < 10 ^ kolibri_podschitat_cifry v := by
  induction v using Nat.strong_induction_on with
  | _ v ih =>
    rw [kolibri_podschitat_cifry_eq]
    split
    · simpa
    · rename_i hv
      have hdiv := ih (v / 10) (Nat.div_lt_self (by omega) (by omega))
      have : v < 10 * 10 ^ kolibri_podschitat_cifry (v / 10) := by
        have hvd : v < 10 * (v / 10) + 10 := by omega
        calc v < 10 * (v / 10) + 10 := hvd
          _ ≤ 10 * 10 ^ kolibri_podschitat_cifry (v / 10) := by
              have : v / 10 + 1 ≤ 10 ^ kolibri_podschitat_cifry (v / 10) := hdiv
              nlinarith
      calc v < 10 * 10 ^ kolibri_podschitat_cifry (v / 10) := this
        _ = 10 ^ (1 + kolibri_podschitat_cifry (v / 10)) := by
            rw [pow_add, pow_one]

theorem cifry_starshie_length (n len : Nat) :
    (cifry_starshie n len).length = len := by
  induction len with
  | zero => rfl
  | succ len ih => simp [cifry_starshie, ih]

theorem cifry_starshie_all_le (n len : Nat) :
    ∀ d ∈ cifry_starshie n len, d ≤ 9 := by
  induction len with
  | zero => intro d hd; simp [cifry_starshie] at hd
  | succ len ih =>
    intro d hd
    simp only [cifry_starshie, List.mem_cons] at hd
    rcases hd with h | h
    · omega
    · exact ih d h

theorem cifry_starshie_mod (len : Nat) :
    ∀ m : Nat, cifry_starshie (m % 10 ^ len) len = cifry_starshie m len := by
  induction len with
  | zero => intro m; rfl
  | succ len ih =>
    intro m
    simp only [cifry_starshie]
    congr 1
    · rw [pow_succ, Nat.mod_mul_right_div_self]
      omega
    · calc cifry_starshie (m % 10 ^ (len + 1)) len
          = cifry_starshie (m % 10 ^ (len + 1) % 10 ^ len) len := (ih _).symm
        _ = cifry_starshie (m % 10 ^ len) len := by
            rw [Nat.mod_mod_of_dvd _ (pow_dvd_pow 10 (by omega))]
        _ = cifry_starshie m len := ih m

theorem kolibri_schitat_modul_aux (len : Nat) :
    ∀ a m : Nat, m < 10 ^ len → a * 10 ^ len + m < 2 ^ 64 →
    (cifry_starshie m len).foldlM
      (fun modul cifra =>
        if cifra > 9 then none
        else if modul > (2 ^ 64 - 1 - cifra) / 10 then none
        else some (modul * 10 + cifra))
      a = some (a * 10 ^ len + m) := by
  induction len with
  | zero =>
    intro a m hm _
    simp only [cifry_starshie, List.foldlM_nil]
    have : m = 0 := by omega
    simp [this]
  | succ len ih =>
    intro a m hm hbound
    have hpow : (0 : Nat) < 10 ^ len := by positivity
    have hmod := Nat.div_add_mod m (10 ^ len)
    have hd10 : m / 10 ^ len < 10 := by
      rw [Nat.div_lt_iff_lt_mul hpow]
      rw [pow_succ] at hm
      omega
    have hd : m / 10 ^ len % 10 = m / 10 ^ len := Nat.mod_eq_of_lt hd10
    have hstep : (a * 10 + m / 10 ^ len) * 10 ^ len + m % 10 ^ len =
        a * 10 ^ (len + 1) + m := by
      calc (a * 10 + m / 10 ^ len) * 10 ^ len + m % 10 ^ len
          = a * (10 ^ len * 10) + (10 ^ len * (m / 10 ^ len) + m % 10 ^ len) := by
            ring
        _ = a * 10 ^ (len + 1) + m := by rw [hmod, pow_succ]
    have hnext : (a * 10 + m / 10 ^ len) * 10 ^ len + m % 10 ^ len < 2 ^ 64 := by
      rw [hstep]; exact hbound
    have hguard : ¬ a > (2 ^ 64 - 1 - m / 10 ^ len % 10) / 10 := by
      rw [hd]
      have h1 : a * 10 + m / 10 ^ len ≤ (a * 10 + m / 10 ^ len) * 10 ^ len :=
        Nat.le_mul_of_pos_right _ hpow
      rw [not_lt, Nat.le_div_iff_mul_le (by omega)]
      omega
    simp only [cifry_starshie, List.foldlM_cons]
    rw [if_neg (by omega), if_neg hguard]
    simp only [Option.pure_def, Option.bind_eq_bind, Option.some_bind, hd]
    rw [← cifry_starshie_mod len m]
    have := ih (a * 10 + m / 10 ^ len) (m % 10 ^ len)
      (Nat.mod_lt _ hpow) hnext
    rw [this, hstep]

/-- C5: for every byte sequence that fits the digit buffer, decoding
the digit stream produced by encoding it yields the original bytes
(three digits per byte), and every signed 64-bit integer — including
`INT64_MIN` and `INT64_MAX` — round-trips exactly through
`kolibri_potok_cifr_zapisat_chislo` / `kolibri_potok_cifr_schitat_chislo`. -/
theorem C5_kodeki_cifr_obratimy :
    (∀ (bajty : List Nat) (emkost vyhod : Nat),
      (∀ b ∈ bajty, b < 256) →
      3 * bajty.length ≤ emkost →
      bajty.length ≤ vyhod →
      (kolibri_transducirovat_utf8 (kolibri_potok_cifr_init emkost) bajty).bind
          (fun p => kolibri_izluchit_utf8 p vyhod) = some bajty ∧
      (kolibri_transducirovat_utf8 (kolibri_potok_cifr_init emkost)
          bajty).map (fun p => p.cifry.length) = some (3 * bajty.length))
    ∧ (∀ (z : Int) (emkost : Nat),
      -(2 ^ 63) ≤ z → z < 2 ^ 63 → 22 ≤ emkost →
      ((kolibri_potok_cifr_zapisat_chislo (kolibri_potok_cifr_init emkost) z).bind
          kolibri_potok_cifr_schitat_chislo).map Prod.fst = some z) := by
  constructor
  · intro bajty emkost vyhod hb hcap hout
    have henc := kolibri_transducirovat_utf8_ok bajty
      (kolibri_potok_cifr_init emkost)
      (fun b hb2 => lt_trans (hb b hb2) (by omega))
      (by simpa [kolibri_potok_cifr_init] using hcap)
    rw [henc]
    refine ⟨?_, ?_⟩
    · simp only [kolibri_potok_cifr_init, List.nil_append, Option.some_bind,
        kolibri_izluchit_utf8, kodirovka_length]
      rw [if_neg (by omega), if_neg (by omega)]
      rw [kolibri_sobrat_bajty_kodirovka bajty
        (fun b hb2 => lt_trans (hb b hb2) (by omega))]
    · simp [kolibri_potok_cifr_init, kodirovka_length]
  · intro z emkost hlo hhi hcap
    set m := kolibri_absolyut z with hm
    have hm63 : m ≤ 2 ^ 63 := by
      rcases le_or_lt 0 z with hz | hz
      · have : (m : Int) = z := by
          rw [hm, kolibri_absolyut, Int.natAbs_of_nonneg hz]
        omega
      · have : (m : Int) = -z := by
          rw [hm, kolibri_absolyut, Int.ofNat_natAbs_of_nonpos (le_of_lt hz)]
        omega
    set n := kolibri_podschitat_cifry m with hn
    have hn1 : 1 ≤ n := kolibri_podschitat_cifry_pos m
    have hn19 : n ≤ 19 := by
      apply kolibri_podschitat_cifry_le m 19 (by omega)
      calc m ≤ 2 ^ 63 := hm63
        _ < 10 ^ 19 := by norm_num
    have hmn : m < 10 ^ n := kolibri_lt_pow_podschitat m
    have hzap : kolibri_potok_cifr_zapisat_chislo
        (kolibri_potok_cifr_init emkost) z =
        some ⟨[n / 10 % 10, n % 10, if z < 0 then 1 else 0] ++
          cifry_starshie m n, emkost, 0⟩ := by
      unfold kolibri_potok_cifr_zapisat_chislo
      simp only [kolibri_potok_cifr_init, List.length_nil, List.nil_append]
      rw [← hm, ← hn]
      rw [if_neg (by omega), if_neg (by omega)]
    rw [hzap]
    rw [Option.some_bind]
    have hchislo : n / 10 % 10 * 10 + n % 10 = n := by omega
    have htake : (cifry_starshie m n).take n = cifry_starshie m n :=
      List.take_of_length_le (by rw [cifry_starshie_length])
    have hmodul : kolibri_schitat_modul (cifry_starshie m n) = some m := by
      have := kolibri_schitat_modul_aux n 0 m hmn (by omega)
      simpa [kolibri_schitat_modul] using this
    unfold kolibri_potok_cifr_schitat_chislo
    simp only [List.cons_append, List.nil_append, List.drop_zero, hchislo,
      cifry_starshie_length]
    rw [if_neg (by push_neg; refine ⟨by omega, by omega, by split <;> omega⟩),
      if_neg (by push_neg; omega), if_neg (by omega)]
    rw [htake, hmodul]
    rcases lt_or_le z 0 with hz | hz
    · have hmz : (m : Int) = -z := by
        rw [hm, kolibri_absolyut, Int.ofNat_natAbs_of_nonpos (le_of_lt hz)]
      simp only [if_pos hz, if_neg (show ¬ (1 : Nat) = 0 by omega),
        if_neg (show ¬ m > 2 ^ 63 by omega), Option.pure_def,
        Option.bind_eq_bind, Option.some_bind, Option.map_some',
        Option.some.injEq, Int.ofNat_eq_natCast]
      omega
    · have hmz : (m : Int) = z := by
        rw [hm, kolibri_absolyut, Int.natAbs_of_nonneg hz]
      simp only [if_neg (not_lt.mpr hz), if_pos (Eq.refl (0 : Nat)), if_true,
        if_neg (show ¬ m > 2 ^ 63 - 1 by omega), Option.pure_def,
        Option.bind_eq_bind, Option.some_bind, Option.map_some',
        Option.some.injEq, Int.ofNat_eq_natCast]
      omega

/-- Witness for C5 at a concrete byte list and at `INT64_MIN`. -/
theorem C5_kodeki_cifr_obratimy_witness :
    (kolibri_transducirovat_utf8 (kolibri_potok_cifr_init 9) [0, 171, 255]).bind
        (fun p => kolibri_izluchit_utf8 p 3) = some [0, 171, 255] ∧
    ((kolibri_potok_cifr_zapisat_chislo (kolibri_potok_cifr_init 22)
        (-(2 ^ 63))).bind kolibri_potok_cifr_schitat_chislo).map Prod.fst =
      some (-(2 ^ 63)) :=
  ⟨(C5_kodeki_cifr_obratimy.1 [0, 171, 255] 9 3 (by decide) (by decide)
      (by decide)).1,
    C5_kodeki_cifr_obratimy.2 (-(2 ^ 63)) 22 (by norm_num) (by norm_num)
      (by norm_num)⟩

/-! ## Formula evolution pool (src/backend/src/formula.c)

Scalars of C type `double` (fitness, feedback, deltas, the complexity
penalty) are modelled as `ℚ`; the properties proved below (clamping,
resets, gene lengths, determinism) are preserved under any rounding,
so the move from binary64 to exact rationals does not affect them. -/

/-- Modelled from the spec: src/ uses `k_rng_seed`/`k_rng_next` from
`kolibri/random.h`, a header that is not part of the source snapshot.
Spec §6 fixes the collaborator interface only as "a pseudo-random
generator exposing `seed(u64)` and `next() -> u64`", i.e. a
deterministic 64-bit generator; a 64-bit LCG realizes that interface
here. -/
structure KolibriRng where
  sostoyanie : Nat
  deriving Repr, DecidableEq

/-- Modelled from the spec: deterministic seeding of the generator. -/
def k_rng_seed (seed : Nat) : KolibriRng :=
  ⟨seed % 2 ^ 64⟩

/-- Modelled from the spec: one deterministic 64-bit generator step. -/
def k_rng_next (rng : KolibriRng) : Nat × KolibriRng :=
  let novoe := (rng.sostoyanie * 6364136223846793005 + 1442695040888963407) % 2 ^ 64
  (novoe, ⟨novoe⟩)

/-- A gene (`KolibriGene` in formula.h): a 32-cell digit array plus a
logical `length`.  Cells past `length` are never read by any operation
of formula.c (every comparison, copy and decode is bounded by
`length`), so the gene is modelled as the list of its logical digits,
with `length = digits.length`. -/
structure KolibriGene where
  digits : List Nat
  deriving Repr, DecidableEq

/-- `random_digit`: one generator step reduced mod 10. -/
def random_digit (rng : KolibriRng) : Nat × KolibriRng :=
  let (v, r) := k_rng_next rng
  (v % 10, r)

/-- `gene_randomize`: a full-capacity (32-digit) fresh random gene. -/
def gene_randomize (rng : KolibriRng) : KolibriGene × KolibriRng :=
  let par := (List.range 32).foldl
    (fun (acc : List Nat × KolibriRng) _ =>
      let (d, r') := random_digit acc.2
      (acc.1 ++ [d], r'))
    ([], rng)
  (⟨par.1⟩, par.2)

/-- `fnv1a32`: the 32-bit FNV-1a hash of a byte string (the C loop
stops at the terminating NUL; strings are modelled as their NUL-free
byte lists). -/
def fnv1a32 (text : List Nat) : Nat :=
  text.foldl (fun h b => ((h ^^^ b) * 16777619) % 2 ^ 32) 2166136261

/-- `kolibri_hash_to_int`: mask to 31 bits (the subsequent
`hash > INT_MAX` test in the C code can then never fire). -/
def kolibri_hash_to_int (hash : Nat) : Int :=
  Int.ofNat (hash % 2 ^ 31)

/-- `kf_hash_from_text`. -/
def kf_hash_from_text (text : List Nat) : Int :=
  kolibri_hash_to_int (fnv1a32 text)

/-- An association (`KolibriAssociation`): question/answer text with
their derived hashes, a source tag and a timestamp.  The optional
symbol-table digit encodings (`question_digits`/`answer_digits`) are
deterministic functions of the other fields that no operation modelled
here ever reads back, so they are omitted from the model.  `question`
is stored in a 256-byte buffer (`KOLIBRI_ASSOC_TEXT_LIMIT`) and
`answer` in a 512-byte buffer, hence the `strncpy` truncations to 255
and 511 bytes. -/
structure KolibriAssociation where
  input_hash : Int
  output_hash : Int
  question : List Nat
  answer : List Nat
  istochnik : List Nat
  timestamp : Nat
  deriving Repr, DecidableEq

/-- `association_set`: build an association; hashes are computed over
the truncated copies, exactly as the C code hashes `assoc->question`
after `strncpy`.  The capacity of the source tag is not fixed by the
sources available under src/ and no modelled operation reads it back,
so it is stored untruncated. -/
def association_set (question answer istochnik : List Nat)
    (timestamp : Nat) : KolibriAssociation :=
  let q := question.take 255
  let a := answer.take 511
  { input_hash := kolibri_hash_to_int (fnv1a32 q)
    output_hash := kolibri_hash_to_int (fnv1a32 a)
    question := q
    answer := a
    istochnik := istochnik
    timestamp := timestamp }

/-- A formula: one gene, fitness/feedback scalars and up to
`KOLIBRI_FORMULA_MAX_ASSOCIATIONS = 32` copied associations. -/
structure KolibriFormula where
  gene : KolibriGene
  fitness : ℚ
  feedback : ℚ
  associations : List KolibriAssociation
  deriving Repr, DecidableEq

/-- Default formula used for (provably in-bounds) list indexing. -/
def formula_default : KolibriFormula :=
  ⟨⟨[]⟩, 0, 0, []⟩

/-- The pool (`KolibriFormulaPool`): 24 formulas, the seeded generator,
up to 64 numeric examples and up to `KOLIBRI_POOL_MAX_ASSOCIATIONS = 64`
pool-level associations.  `count = formulas.length` and
`examples = inputs.length`. -/
structure KolibriFormulaPool where
  formulas : List KolibriFormula
  rng : KolibriRng
  inputs : List Int
  targets : List Int
  associations : List KolibriAssociation
  deriving Repr, DecidableEq

/-- `kf_pool_init`: seed the generator, randomize all 24 genes, zero
all fitness/feedback, clear examples and associations. -/
def kf_pool_init (seed : Nat) : KolibriFormulaPool :=
  let par := (List.range 24).foldl
    (fun (acc : List KolibriFormula × KolibriRng) _ =>
      let (g, r') := gene_randomize acc.2
      (acc.1 ++ [{ gene := g, fitness := 0, feedback := 0, associations := [] }], r'))
    ([], k_rng_seed seed)
  { formulas := par.1, rng := par.2, inputs := [], targets := [], associations := [] }

/-- `kf_pool_add_example`: append a numeric example, failing (with the
pool unchanged) once the 64-slot buffer is full. -/
def kf_pool_add_example (pool : KolibriFormulaPool) (input target : Int) :
    Option KolibriFormulaPool :=
  if pool.inputs.length ≥ 64 then none
  else some { pool with
    inputs := pool.inputs ++ [input]
    targets := pool.targets ++ [target] }

/-- The association-table update inside `kf_pool_add_association`:
overwrite the first entry with the same `input_hash` and question in
place; otherwise append, evicting index 0 (shift left) when the
64-slot table is full. -/
def kf_pool_obnovit_tablicu (tablica : List KolibriAssociation)
    (assoc : KolibriAssociation) : List KolibriAssociation :=
  match tablica.findIdx?
      (fun a => a.input_hash = assoc.input_hash ∧ a.question = assoc.question) with
  | some i => tablica.set i assoc
  | none =>
    if tablica.length ≥ 64 then tablica.drop 1 ++ [assoc]
    else tablica ++ [assoc]

/-- `kf_pool_add_association`: build the association, update the
pool-level table, then register a numeric example from the two hashes,
returning that call's success flag (`false` = the C `-1`; the table
update is kept either way). -/
def kf_pool_add_association (pool : KolibriFormulaPool)
    (question answer istochnik : List Nat) (timestamp : Nat) :
    Bool × KolibriFormulaPool :=
  match kf_pool_add_example
      { pool with associations := kf_pool_obnovit_tablicu pool.associations (association_set question answer istochnik timestamp) }
      (association_set question answer istochnik timestamp).input_hash
      (association_set question answer istochnik timestamp).output_hash with
  | some pool2 => (true, pool2)
  | none => (false,
      { pool with associations := kf_pool_obnovit_tablicu pool.associations (association_set question answer istochnik timestamp) })

/-- `decode_operation`: digit at `offset`, mod 4. -/
def decode_operation (gene : KolibriGene) (offset : Nat) : Option Nat :=
  if offset ≥ gene.digits.length then none
  else some (gene.digits.getD offset 0 % 4)

/-- `decode_signed`: sign digit (even = `+`) and two magnitude digits.
The C bound check is `offset + 3 >= length` (one digit stricter than
the three reads require). -/
def decode_signed (gene : KolibriGene) (offset : Nat) : Option Int :=
  if offset + 3 ≥ gene.digits.length then none
  else
    let sign : Int := if gene.digits.getD offset 0 % 2 = 0 then 1 else -1
    let magnitude : Int :=
      gene.digits.getD (offset + 1) 0 * 10 + gene.digits.getD (offset + 2) 0
    some (sign * magnitude)

/-- `decode_bias`: like `decode_signed` but with the C bound check
`offset + 2 >= length`. -/
def decode_bias (gene : KolibriGene) (offset : Nat) : Option Int :=
  if offset + 2 ≥ gene.digits.length then none
  else
    let sign : Int := if gene.digits.getD offset 0 % 2 = 0 then 1 else -1
    let magnitude : Int :=
      gene.digits.getD (offset + 1) 0 * 10 + gene.digits.getD (offset + 2) 0
    some (sign * magnitude)

/-- `formula_predict_numeric`: decode operation/slope/bias/auxiliary at
offsets 0/1/4/7 and evaluate, clamping the `long long` result into
`int` range.  `%` is C truncated remainder (`Int.tmod`).  (The C
intermediate can overflow `long long` for quadratic genes at extreme
inputs, which is undefined behaviour in C; the model computes the
exact value.) -/
def formula_predict_numeric (formula : KolibriFormula) (input : Int) :
    Option Int := do
  let operation ← decode_operation formula.gene 0
  let slope ← decode_signed formula.gene 1
  let bias ← decode_bias formula.gene 4
  let auxiliary ← decode_signed formula.gene 7
  let result : Int :=
    if operation = 0 then slope * input + bias
    else if operation = 1 then slope * input - bias
    else if operation = 2 then
      let divisor := if auxiliary = 0 then 1 else auxiliary
      Int.tmod (slope * input) divisor + bias
    else if operation = 3 then slope * input * input + bias
    else bias
  let ogranichennyj : Int :=
    if result > 2147483647 then 2147483647
    else if result < -2147483648 then -2147483648
    else result
  some ogranichennyj

/-- `complexity_penalty`: 0.001 per unit of every nonzero digit. -/
def complexity_penalty (gene : KolibriGene) : ℚ :=
  gene.digits.foldl
    (fun p d => if d = 0 then p else p + (d : ℚ) / 1000) 0

/-- `evaluate_formula_numeric`: accumulated absolute error over all
examples (0 when there are none or any prediction fails), folded into
`1 / (1 + error + penalty)`. -/
def evaluate_formula_numeric (formula : KolibriFormula)
    (pool : KolibriFormulaPool) : ℚ :=
  if pool.inputs.length = 0 then 0
  else
    match (pool.inputs.zip pool.targets).mapM
        (fun par => (formula_predict_numeric formula par.1).map
          (fun prediction => ((par.2 - prediction).natAbs : ℚ))) with
    | none => 0
    | some oshibki =>
      1 / (1 + oshibki.sum + complexity_penalty formula.gene)

/-- `apply_feedback_bonus`: add the feedback accumulator and clamp the
result into [0, 1]. -/
def apply_feedback_bonus (formula : KolibriFormula) (fitness : ℚ) : ℚ :=
  let adjusted := fitness + formula.feedback
  let adjusted1 := if adjusted < 0 then 0 else adjusted
  if adjusted1 > 1 then 1 else adjusted1

/-- `mutate_gene`: one random position receives one random digit.
(When `digits.length = 0` the C modulus is undefined behaviour; the
model's `% 0` keeps the raw value and the out-of-range `set` is a
no-op — the case is unreachable, every gene in a pool has length 32.) -/
def mutate_gene (rng : KolibriRng) (gene : KolibriGene) :
    KolibriGene × KolibriRng :=
  let (v, r1) := k_rng_next rng
  let indeks := v % gene.digits.length
  let (delta, r2) := random_digit r1
  (⟨gene.digits.set indeks delta⟩, r2)

/-- `crossover`: single-point crossover at the midpoint of parent A's
length; positions past `split` read parent B's backing array
(modelled by `getD 0` — in every reachable pool both parents have the
same full length 32). -/
def crossover (parent_a parent_b : KolibriGene) : KolibriGene :=
  let split := parent_a.digits.length / 2
  ⟨(List.range parent_a.digits.length).map
    (fun i => if i < split then parent_a.digits.getD i 0
      else parent_b.digits.getD i 0)⟩

/-- Stable descending insertion used to model the `qsort` call on
`compare_formulas` (descending by fitness, ties returning 0).  glibc's
`qsort` is deterministic but leaves tie order unspecified; a stable
sort is one realization, and every property proved here (determinism,
gene lengths, fitness bounds) is independent of the tie order. -/
def vstavit_po_fitnessu (f : KolibriFormula) :
    List KolibriFormula → List KolibriFormula
  | [] => [f]
  | g :: rest =>
    if f.fitness > g.fitness then f :: g :: rest
    else g :: vstavit_po_fitnessu f rest

/-- The modelled `qsort(pool->formulas, …, compare_formulas)`. -/
def sortirovat_po_fitnessu (fs : List KolibriFormula) :
    List KolibriFormula :=
  fs.foldl (fun acc f => vstavit_po_fitnessu f acc) []

/-- `reproduce`: keep the top third (at least one) as elites; refill
every later slot with a mutated crossover of two elites and zeroed
fitness/feedback/associations.  The C loop reads parents at indices
`< elite`, which it never overwrites, so reading from the running
list is the same as reading from the original. -/
def reproduce (pool : KolibriFormulaPool) : KolibriFormulaPool :=
  let elite := if pool.formulas.length / 3 = 0 then 1 else pool.formulas.length / 3
  let par := (List.range pool.formulas.length).foldl
    (fun (acc : List KolibriFormula × KolibriRng) i =>
      if i < elite then acc
      else
        let parent_a := acc.1.getD (i % elite) formula_default
        let parent_b := acc.1.getD ((i + 1) % elite) formula_default
        let child := crossover parent_a.gene parent_b.gene
        let (child2, r') := mutate_gene acc.2 child
        (acc.1.set i { gene := child2, fitness := 0, feedback := 0, associations := [] }, r'))
    (pool.formulas, pool.rng)
  { pool with formulas := par.1, rng := par.2 }

/-- `copy_dataset_into_formula`: copy min(count, 32) pool associations
into the formula. -/
def copy_dataset_into_formula (pool : KolibriFormulaPool)
    (formula : KolibriFormula) : KolibriFormula :=
  { formula with associations := pool.associations.take 32 }

/-- `evaluate_association_fitness`: 1.0 whenever any association is
taught, else 0.0. -/
def evaluate_association_fitness (pool : KolibriFormulaPool) : ℚ :=
  if pool.associations.length = 0 then 0 else 1

/-- One generation of `kf_pool_tick`: score every formula (with the
feedback bonus), sort descending, reproduce. -/
def kf_pool_generation (pool : KolibriFormulaPool) : KolibriFormulaPool :=
  let ocenennye := pool.formulas.map
    (fun f => { f with fitness := apply_feedback_bonus f (evaluate_formula_numeric f pool) })
  reproduce { pool with formulas := sortirovat_po_fitnessu ocenennye }

/-- The closing block of `kf_pool_tick`: when any associations are
taught, copy the association table into the top `min(count, 3)`
formulas, force their fitness to the association value and re-sort. -/
def kf_pool_nagradit_associacii (p1 : KolibriFormulaPool) :
    KolibriFormulaPool :=
  if p1.associations.length = 0 then p1
  else
    let assoc_fitness := evaluate_association_fitness p1
    let limit := min p1.formulas.length 3
    let obnovlennye := p1.formulas.mapIdx
      (fun i f => if i < limit then
          { copy_dataset_into_formula p1 f with fitness := assoc_fitness }
        else f)
    { p1 with formulas := sortirovat_po_fitnessu obnovlennye }

/-- `kf_pool_tick`: run `max generations 1` generations, then reward
the taught associations. -/
def kf_pool_tick (pool : KolibriFormulaPool) (generations : Nat) :
    KolibriFormulaPool :=
  if pool.formulas.length = 0 then pool
  else
    kf_pool_nagradit_associacii
      ((List.range (if generations = 0 then 1 else generations)).foldl
        (fun acc _ => kf_pool_generation acc) pool)

/-- `kf_pool_best`: the top-ranked formula (`NULL` iff the pool is
empty). -/
def kf_pool_best (pool : KolibriFormulaPool) : Option KolibriFormula :=
  pool.formulas.head?

/-- `kf_formula_apply`: exact association lookup first, then the
numeric rule. -/
def kf_formula_apply (formula : KolibriFormula) (input : Int) : Option Int :=
  match formula.associations.find? (fun a => a.input_hash = input) with
  | some assoc => some assoc.output_hash
  | none => formula_predict_numeric formula input

/-- `adjust_feedback`: add the delta to the feedback accumulator
(clamped to [-1, 1]) and to the fitness (floored at 0; no upper
clamp). -/
def adjust_feedback (formula : KolibriFormula) (delta : ℚ) : KolibriFormula :=
  let fb := formula.feedback + delta
  let fb1 := if fb > 1 then 1 else fb
  let fb2 := if fb1 < -1 then -1 else fb1
  let fit := formula.fitness + delta
  let fit1 := if fit < 0 then 0 else fit
  { formula with feedback := fb2, fitness := fit1 }

/-- The upward bubble of `kf_pool_feedback` (positive delta): swap with
the predecessor while strictly fitter. -/
def probublit_vverh (fs : List KolibriFormula) : Nat → List KolibriFormula
  | 0 => fs
  | i + 1 =>
    let tekuschij := fs.getD (i + 1) formula_default
    let predyduschij := fs.getD i formula_default
    if tekuschij.fitness > predyduschij.fitness then
      probublit_vverh ((fs.set i tekuschij).set (i + 1) predyduschij) i
    else fs

/-- The downward bubble of `kf_pool_feedback` (negative delta): swap
with the successor while strictly less fit; `fuel` bounds the walk
exactly as `index + 1 < pool->count` does. -/
def probublit_vniz : Nat → List KolibriFormula → Nat → List KolibriFormula
  | 0, fs, _ => fs
  | fuel + 1, fs, i =>
    if i + 1 < fs.length then
      let tekuschij := fs.getD i formula_default
      let sleduyuschij := fs.getD (i + 1) formula_default
      if tekuschij.fitness < sleduyuschij.fitness then
        probublit_vniz fuel ((fs.set i sleduyuschij).set (i + 1) tekuschij) (i + 1)
      else fs
    else fs

/-- `kf_pool_feedback`: find the first formula whose gene bytes match,
adjust it, and re-position it by a local bubble in the direction of
the delta.  `false` models the C `-1` (gene not found / empty pool). -/
def kf_pool_feedback (pool : KolibriFormulaPool) (gene : KolibriGene)
    (delta : ℚ) : Bool × KolibriFormulaPool :=
  if pool.formulas.length = 0 then (false, pool)
  else
    match pool.formulas.findIdx? (fun f => f.gene.digits = gene.digits) with
    | none => (false, pool)
    | some i =>
      let fs1 := pool.formulas.set i
        (adjust_feedback (pool.formulas.getD i formula_default) delta)
      let fs2 :=
        if delta > 0 then probublit_vverh fs1 i
        else if delta < 0 then probublit_vniz fs1.length fs1 i
        else fs1
      (true, { pool with formulas := fs2 })

/-- One external call to the pool, for quantifying over call
sequences. -/
inductive KolibriPoolOp where
  | add_example (input target : Int)
  | add_association (question answer istochnik : List Nat) (timestamp : Nat)
  | tick (generations : Nat)
  | feedback (gene : KolibriGene) (delta : ℚ)
  deriving Repr, DecidableEq

/-- Apply one call to the pool (the pool state a caller observes after
the call, including the C behaviour of leaving the pool unchanged on
`add_example` failure). -/
def kf_pool_run_op (pool : KolibriFormulaPool) :
    KolibriPoolOp → KolibriFormulaPool
  | .add_example input target => (kf_pool_add_example pool input target).getD pool
  | .add_association q a istochnik ts => (kf_pool_add_association pool q a istochnik ts).2
  | .tick generations => kf_pool_tick pool generations
  | .feedback gene delta => (kf_pool_feedback pool gene delta).2

/-- Run a whole call sequence. -/
def kf_pool_run (pool : KolibriFormulaPool) (ops : List KolibriPoolOp) :
    KolibriFormulaPool :=
  ops.foldl kf_pool_run_op pool

/-! ### Pool invariants -/

/-- Scalar bounds maintained for every formula of a reachable pool:
fitness never drops below 0, the feedback accumulator stays in
[-1, 1]. -/
def kf_formula_scalars_ok (f : KolibriFormula) : Prop :=
  0 ≤ f.fitness ∧ -1 ≤ f.feedback ∧ f.feedback ≤ 1

/-- Aggregate list fold preservation. -/
theorem foldl_sohranyaet {α β : Type} (P : α → Prop) (f : α → β → α)
    (l : List β) :
    ∀ a : α, P a → (∀ x b, P x → P (f x b)) → P (l.foldl f a) := by
  induction l with
  | nil => intro a ha _; exact ha
  | cons b rest ih =>
    intro a ha hstep
    exact ih (f a b) (hstep a b ha) hstep

theorem getD_mem {α : Type} (l : List α) (n : Nat) (d : α)
    (h : n < l.length) : l.getD n d ∈ l := by
  rw [List.getD_eq_getElem l d h]
  exact List.getElem_mem h

theorem mem_vstavit {f x : KolibriFormula} :
    ∀ {l : List KolibriFormula}, x ∈ vstavit_po_fitnessu f l → x = f ∨ x ∈ l := by
  intro l
  induction l with
  | nil => intro h; simp [vstavit_po_fitnessu] at h; exact Or.inl h
  | cons g rest ih =>
    intro h
    simp only [vstavit_po_fitnessu] at h
    by_cases hc : f.fitness > g.fitness
    · rw [if_pos hc] at h
      rcases List.mem_cons.mp h with h | h
      · exact Or.inl h
      · exact Or.inr h
    · rw [if_neg hc] at h
      rcases List.mem_cons.mp h with h | h
      · exact Or.inr (by simp [h])
      · rcases ih h with h2 | h2
        · exact Or.inl h2
        · exact Or.inr (by simp [h2])

theorem mem_sortirovat {x : KolibriFormula} {l : List KolibriFormula}
    (h : x ∈ sortirovat_po_fitnessu l) : x ∈ l := by
  unfold sortirovat_po_fitnessu at h
  have obsch : ∀ (l : List KolibriFormula) (acc : List KolibriFormula),
      x ∈ l.foldl (fun acc f => vstavit_po_fitnessu f acc) acc →
      x ∈ l ∨ x ∈ acc := by
    intro l
    induction l with
    | nil => intro acc h2; exact Or.inr h2
    | cons g rest ih =>
      intro acc h2
      rcases ih _ h2 with h3 | h3
      · exact Or.inl (by simp [h3])
      · rcases mem_vstavit h3 with h4 | h4
        · exact Or.inl (by simp [h4])
        · exact Or.inr h4
  rcases obsch l [] h with h2 | h2
  · exact h2
  · simp at h2

theorem foldl_dlina {α β : Type} (dlina : α → Nat) (f : α → β → α)
    (l : List β) (h : ∀ a b, dlina (f a b) = dlina a + 1) :
    ∀ a, dlina (l.foldl f a) = dlina a + l.length := by
  induction l with
  | nil => intro a; simp
  | cons b rest ih =>
    intro a
    simp only [List.foldl_cons, List.length_cons, ih (f a b), h a b]
    omega

theorem vstavit_dlina (f : KolibriFormula) (l : List KolibriFormula) :
    (vstavit_po_fitnessu f l).length = l.length + 1 := by
  induction l with
  | nil => rfl
  | cons g rest ih =>
    simp only [vstavit_po_fitnessu]
    split
    · simp
    · simp [ih]

theorem sortirovat_dlina (l : List KolibriFormula) :
    (sortirovat_po_fitnessu l).length = l.length := by
  unfold sortirovat_po_fitnessu
  have := foldl_dlina (fun acc => acc.length)
    (fun acc f => vstavit_po_fitnessu f acc) l
    (fun a b => vstavit_dlina b a) []
  simpa using this

theorem gene_randomize_dlina (rng : KolibriRng) :
    (gene_randomize rng).1.digits.length = 32 := by
  unfold gene_randomize
  have := foldl_dlina (fun (acc : List Nat × KolibriRng) => acc.1.length)
    (fun acc _ =>
      let par := random_digit acc.2
      (acc.1 ++ [par.1], par.2))
    (List.range 32) (fun a b => by simp) ([], rng)
  simpa using this

theorem crossover_dlina (a b : KolibriGene) :
    (crossover a b).digits.length = a.digits.length := by
  simp [crossover]

theorem mutate_gene_dlina (rng : KolibriRng) (g : KolibriGene) :
    (mutate_gene rng g).1.digits.length = g.digits.length := by
  simp [mutate_gene]

/-- The full per-formula invariant of every reachable pool: scalar
bounds and full-capacity genes. -/
def kf_formula_ok (f : KolibriFormula) : Prop :=
  kf_formula_scalars_ok f ∧ f.gene.digits.length = 32

/-- The reachable-pool invariant: constant population of 24, every
formula well-formed. -/
def kf_pool_ok (pool : KolibriFormulaPool) : Prop :=
  pool.formulas.length = 24 ∧ ∀ f ∈ pool.formulas, kf_formula_ok f

theorem kf_pool_init_ok (seed : Nat) : kf_pool_ok (kf_pool_init seed) := by
  unfold kf_pool_init kf_pool_ok
  constructor
  · have := foldl_dlina
      (fun (acc : List KolibriFormula × KolibriRng) => acc.1.length)
      (fun acc _ =>
        let par := gene_randomize acc.2
        (acc.1 ++ [{ gene := par.1, fitness := 0, feedback := 0, associations := [] }], par.2))
      (List.range 24) (fun a b => by simp) ([], k_rng_seed seed)
    simpa using this
  · have := foldl_sohranyaet
      (fun (acc : List KolibriFormula × KolibriRng) => ∀ f ∈ acc.1, kf_formula_ok f)
      (fun acc _ =>
        let par := gene_randomize acc.2
        (acc.1 ++ [{ gene := par.1, fitness := 0, feedback := 0, associations := [] }], par.2))
      (List.range 24) ([], k_rng_seed seed) (by simp)
      (by
        intro x b hx
        intro f hf
        simp only [List.mem_append, List.mem_singleton] at hf
        rcases hf with hf | hf
        · exact hx f hf
        · subst hf
          refine ⟨⟨by norm_num, by norm_num, by norm_num⟩, gene_randomize_dlina _⟩)
    simpa using this

theorem reproduce_ok (pool : KolibriFormulaPool) (h : kf_pool_ok pool) :
    kf_pool_ok (reproduce pool) := by
  obtain ⟨hlen, hvse⟩ := h
  unfold reproduce
  have hfold := foldl_sohranyaet
    (fun (acc : List KolibriFormula × KolibriRng) =>
      acc.1.length = 24 ∧ ∀ f ∈ acc.1, kf_formula_ok f)
    (fun acc i =>
      if i < (if pool.formulas.length / 3 = 0 then 1 else pool.formulas.length / 3) then acc
      else
        let parent_a := acc.1.getD (i % (if pool.formulas.length / 3 = 0 then 1 else pool.formulas.length / 3)) formula_default
        let parent_b := acc.1.getD ((i + 1) % (if pool.formulas.length / 3 = 0 then 1 else pool.formulas.length / 3)) formula_default
        let child := crossover parent_a.gene parent_b.gene
        let par2 := mutate_gene acc.2 child
        (acc.1.set i { gene := par2.1, fitness := 0, feedback := 0, associations := [] }, par2.2))
    (List.range pool.formulas.length)
    (pool.formulas, pool.rng) ⟨hlen, hvse⟩ ?step
  · exact ⟨by simpa using hfold.1, by simpa using hfold.2⟩
  · intro acc i hacc
    obtain ⟨hacclen, haccvse⟩ := hacc
    by_cases hi : i < (if pool.formulas.length / 3 = 0 then 1 else pool.formulas.length / 3)
    · simpa [hi] using ⟨hacclen, haccvse⟩
    · simp only [if_neg hi]
      have helite : (if pool.formulas.length / 3 = 0 then 1 else pool.formulas.length / 3) ≤ 24 := by
        rw [hlen]
        norm_num
      have hmem : acc.1.getD
          (i % (if pool.formulas.length / 3 = 0 then 1 else pool.formulas.length / 3))
          formula_default ∈ acc.1 := by
        apply getD_mem
        rw [hacclen]
        have : (if pool.formulas.length / 3 = 0 then 1 else pool.formulas.length / 3) ≠ 0 := by
          split <;> omega
        calc i % (if pool.formulas.length / 3 = 0 then 1 else pool.formulas.length / 3)
            < (if pool.formulas.length / 3 = 0 then 1 else pool.formulas.length / 3) :=
              Nat.mod_lt _ (by omega)
          _ ≤ 24 := helite
      constructor
      · simpa using hacclen
      · intro f hf
        have hsp := List.mem_or_eq_of_mem_set hf
        rcases hsp with hf2 | hf2
        · exact haccvse f hf2
        · subst hf2
          refine ⟨⟨by norm_num, by norm_num, by norm_num⟩, ?_⟩
          rw [mutate_gene_dlina, crossover_dlina]
          exact (haccvse _ hmem).2

theorem apply_feedback_bonus_v_granicah (f : KolibriFormula) (q : ℚ) :
    0 ≤ apply_feedback_bonus f q ∧ apply_feedback_bonus f q ≤ 1 := by
  simp only [apply_feedback_bonus]
  by_cases h1 : q + f.feedback < 0
  · simp only [if_pos h1]
    norm_num
  · simp only [if_neg h1]
    by_cases h2 : q + f.feedback > 1
    · simp only [if_pos h2]
      norm_num
    · simp only [if_neg h2]
      exact ⟨le_of_not_lt h1, le_of_not_lt h2⟩

theorem kf_pool_generation_ok (pool : KolibriFormulaPool)
    (h : kf_pool_ok pool) : kf_pool_ok (kf_pool_generation pool) := by
  obtain ⟨hlen, hvse⟩ := h
  unfold kf_pool_generation
  apply reproduce_ok
  constructor
  · simp [sortirovat_dlina, hlen]
  · intro f hf
    have hf2 := mem_sortirovat hf
    simp only [List.mem_map] at hf2
    obtain ⟨g, hg, rfl⟩ := hf2
    obtain ⟨⟨_, hfb1, hfb2⟩, hglen⟩ := hvse g hg
    exact ⟨⟨(apply_feedback_bonus_v_granicah g _).1, hfb1, hfb2⟩, hglen⟩

theorem kf_pool_nagradit_associacii_ok (p1 : KolibriFormulaPool)
    (h : kf_pool_ok p1) : kf_pool_ok (kf_pool_nagradit_associacii p1) := by
  unfold kf_pool_nagradit_associacii
  split
  · exact h
  · obtain ⟨hlen1, hvse1⟩ := h
    constructor
    · simpa [sortirovat_dlina, List.mapIdx_eq_enum_map] using hlen1
    · intro f hf
      have hf2 := mem_sortirovat hf
      rw [List.mapIdx_eq_enum_map] at hf2
      simp only [List.mem_map] at hf2
      obtain ⟨⟨i, g⟩, hpr, rfl⟩ := hf2
      have hmem : g ∈ p1.formulas := List.snd_mem_of_mem_enum hpr
      obtain ⟨⟨hfit, hfb1, hfb2⟩, hglen⟩ := hvse1 g hmem
      simp only [Function.uncurry_apply_pair]
      split
      · unfold copy_dataset_into_formula evaluate_association_fitness
        refine ⟨⟨?_, hfb1, hfb2⟩, hglen⟩
        split <;> norm_num
      · exact ⟨⟨hfit, hfb1, hfb2⟩, hglen⟩

theorem kf_pool_tick_ok (pool : KolibriFormulaPool) (generations : Nat)
    (h : kf_pool_ok pool) : kf_pool_ok (kf_pool_tick pool generations) := by
  unfold kf_pool_tick
  split
  · exact h
  · exact kf_pool_nagradit_associacii_ok _
      (foldl_sohranyaet kf_pool_ok (fun acc _ => kf_pool_generation acc) _ pool h
        (fun a _ ha => kf_pool_generation_ok a ha))

theorem kf_pool_add_example_ok (pool : KolibriFormulaPool) (input target : Int)
    (h : kf_pool_ok pool) :
    kf_pool_ok ((kf_pool_add_example pool input target).getD pool) := by
  unfold kf_pool_add_example
  split
  · exact h
  · exact ⟨h.1, h.2⟩

theorem kf_pool_add_example_nekotoryj {p p2 : KolibriFormulaPool}
    {i t : Int} (h : kf_pool_add_example p i t = some p2) :
    p.inputs.length < 64 ∧
      p2 = { p with inputs := p.inputs ++ [i], targets := p.targets ++ [t] } := by
  unfold kf_pool_add_example at h
  split at h
  · exact absurd h (by simp)
  · rename_i hcond
    exact ⟨by omega, (Option.some.inj h).symm⟩

theorem kf_pool_add_example_polnyj {p : KolibriFormulaPool} {i t : Int}
    (h : p.inputs.length ≥ 64) : kf_pool_add_example p i t = none := by
  unfold kf_pool_add_example
  rw [if_pos h]

theorem kf_pool_add_association_formulas (pool : KolibriFormulaPool)
    (question answer istochnik : List Nat) (timestamp : Nat) :
    (kf_pool_add_association pool question answer istochnik timestamp).2.formulas
      = pool.formulas := by
  unfold kf_pool_add_association
  split
  · rename_i heq
    obtain ⟨_, rfl⟩ := kf_pool_add_example_nekotoryj heq
    rfl
  · rfl

theorem kf_pool_add_association_ok (pool : KolibriFormulaPool)
    (question answer istochnik : List Nat) (timestamp : Nat)
    (h : kf_pool_ok pool) :
    kf_pool_ok (kf_pool_add_association pool question answer istochnik timestamp).2 := by
  unfold kf_pool_ok
  rw [kf_pool_add_association_formulas]
  exact h

theorem adjust_feedback_ok (f : KolibriFormula) (delta : ℚ)
    (h : kf_formula_ok f) : kf_formula_ok (adjust_feedback f delta) := by
  obtain ⟨⟨hfit, hfb1, hfb2⟩, hlen⟩ := h
  simp only [adjust_feedback, kf_formula_ok, kf_formula_scalars_ok]
  refine ⟨⟨?_, ?_, ?_⟩, hlen⟩
  · split
    · norm_num
    · linarith [le_of_not_lt (by assumption : ¬ f.fitness + delta < 0)]
  · split
    · split
      · norm_num
      · norm_num
    · split
      · norm_num
      · linarith [le_of_not_lt (by assumption : ¬ f.feedback + delta < -1)]
  · split
    · split
      · norm_num
      · norm_num
    · split
      · norm_num
      · linarith [le_of_not_gt (by assumption : ¬ f.feedback + delta > 1)]


theorem probublit_vverh_ok :
    ∀ (i : Nat) (fs : List KolibriFormula), (∀ f ∈ fs, kf_formula_ok f) →
    ∀ f ∈ probublit_vverh fs i, kf_formula_ok f := by
  intro i
  induction i with
  | zero =>
    intro fs hvse f hf
    exact hvse f hf
  | succ i ih =>
    intro fs hvse f hf
    simp only [probublit_vverh] at hf
    split at hf
    · rename_i hcond
      by_cases hb : i + 1 < fs.length
      · refine ih _ ?_ f hf
        intro g hg
        rcases List.mem_or_eq_of_mem_set hg with hg2 | hg2
        · rcases List.mem_or_eq_of_mem_set hg2 with hg3 | hg3
          · exact hvse g hg3
          · subst hg3
            exact hvse _ (getD_mem _ _ _ hb)
        · subst hg2
          exact hvse _ (getD_mem _ _ _ (by omega))
      · exfalso
        have htek : fs.getD (i + 1) formula_default = formula_default :=
          List.getD_eq_default _ _ (by omega)
        by_cases hi : i < fs.length
        · have hpred := hvse _ (getD_mem fs i formula_default hi)
          rw [htek] at hcond
          have h0 : (0 : ℚ) > (fs.getD i formula_default).fitness := hcond
          exact absurd h0 (not_lt.mpr hpred.1.1)
        · have hpred : fs.getD i formula_default = formula_default :=
            List.getD_eq_default _ _ (by omega)
          rw [htek, hpred] at hcond
          exact lt_irrefl _ hcond
    · exact hvse f hf

theorem probublit_vniz_sohranyaet (P : KolibriFormula → Prop) :
    ∀ (fuel : Nat) (fs : List KolibriFormula) (i : Nat),
    (∀ f ∈ fs, P f) → ∀ f ∈ probublit_vniz fuel fs i, P f := by
  intro fuel
  induction fuel with
  | zero =>
    intro fs i hvse f hf
    exact hvse f hf
  | succ fuel ih =>
    intro fs i hvse f hf
    simp only [probublit_vniz] at hf
    split at hf
    · rename_i hb
      split at hf
      · refine ih _ _ ?_ f hf
        intro g hg
        rcases List.mem_or_eq_of_mem_set hg with hg2 | hg2
        · rcases List.mem_or_eq_of_mem_set hg2 with hg3 | hg3
          · exact hvse g hg3
          · subst hg3
            exact hvse _ (getD_mem _ _ _ hb)
        · subst hg2
          exact hvse _ (getD_mem _ _ _ (by omega))
      · exact hvse f hf
    · exact hvse f hf

theorem probublit_vverh_dlina :
    ∀ (i : Nat) (fs : List KolibriFormula),
    (probublit_vverh fs i).length = fs.length := by
  intro i
  induction i with
  | zero => intro fs; rfl
  | succ i ih =>
    intro fs
    simp only [probublit_vverh]
    split
    · rw [ih]
      simp
    · rfl

theorem probublit_vniz_dlina :
    ∀ (fuel : Nat) (fs : List KolibriFormula) (i : Nat),
    (probublit_vniz fuel fs i).length = fs.length := by
  intro fuel
  induction fuel with
  | zero => intro fs i; rfl
  | succ fuel ih =>
    intro fs i
    simp only [probublit_vniz]
    split
    · split
      · rw [ih]
        simp
      · rfl
    · rfl

theorem kf_pool_feedback_ok (pool : KolibriFormulaPool) (gene : KolibriGene)
    (delta : ℚ) (h : kf_pool_ok pool) :
    kf_pool_ok (kf_pool_feedback pool gene delta).2 := by
  obtain ⟨hlen, hvse⟩ := h
  unfold kf_pool_feedback
  split
  · exact ⟨hlen, hvse⟩
  · split
    · exact ⟨hlen, hvse⟩
    · rename_i i hidx
      have hi : i < pool.formulas.length :=
        (List.findIdx?_eq_some_iff_findIdx_eq.mp hidx).1
      have hset : ∀ f ∈ pool.formulas.set i
          (adjust_feedback (pool.formulas.getD i formula_default) delta),
          kf_formula_ok f := by
        intro g hg
        rcases List.mem_or_eq_of_mem_set hg with hg2 | hg2
        · exact hvse g hg2
        · subst hg2
          exact adjust_feedback_ok _ _ (hvse _ (getD_mem _ _ _ hi))
      have hsetlen : (pool.formulas.set i
          (adjust_feedback (pool.formulas.getD i formula_default) delta)).length = 24 := by
        rw [List.length_set]
        exact hlen
      constructor
      · split
        · rw [probublit_vverh_dlina]
          exact hsetlen
        · split
          · rw [probublit_vniz_dlina]
            exact hsetlen
          · exact hsetlen
      · split
        · exact probublit_vverh_ok _ _ hset
        · split
          · exact probublit_vniz_sohranyaet kf_formula_ok _ _ _ hset
          · exact hset

/-- Every pool reachable from `kf_pool_init` through any call sequence
satisfies the invariant. -/
theorem kf_pool_run_ok (seed : Nat) (ops : List KolibriPoolOp) :
    kf_pool_ok (kf_pool_run (kf_pool_init seed) ops) := by
  unfold kf_pool_run
  apply foldl_sohranyaet kf_pool_ok kf_pool_run_op ops _ (kf_pool_init_ok seed)
  intro pool op hpool
  cases op with
  | add_example input target => exact kf_pool_add_example_ok pool input target hpool
  | add_association q a istochnik ts => exact kf_pool_add_association_ok pool q a istochnik ts hpool
  | tick generations => exact kf_pool_tick_ok pool generations hpool
  | feedback gene delta => exact kf_pool_feedback_ok pool gene delta hpool

/-! ### Claims about the evolution pool -/

/-- C2: two pools initialized with `kf_pool_init` on the same seed and
fed the identical call sequence end with byte-identical best genes.
In this embedding every pool operation is a pure function of the pool
state (the only randomness source, the `k_rng` state, lives inside the
pool and is seeded from the argument), so the two runs are literally
the same value. -/
theorem C2_determinizm_pula (seed : Nat) (ops : List KolibriPoolOp)
    (p1 p2 : KolibriFormulaPool)
    (h1 : p1 = kf_pool_run (kf_pool_init seed) ops)
    (h2 : p2 = kf_pool_run (kf_pool_init seed) ops) :
    (kf_pool_best p1).map (fun f => f.gene.digits) =
      (kf_pool_best p2).map (fun f => f.gene.digits) := by
  subst h1
  subst h2
  rfl

/-- Witness for C2: the test-suite scenario (seed 2025, four linear
examples, ticks). -/
theorem C2_determinizm_pula_witness :
    (kf_pool_best (kf_pool_run (kf_pool_init 2025)
        [.add_example 0 1, .add_example 1 3, .add_example 2 5,
          .add_example 3 7, .tick 2])).map (fun f => f.gene.digits) =
      (kf_pool_best (kf_pool_run (kf_pool_init 2025)
        [.add_example 0 1, .add_example 1 3, .add_example 2 5,
          .add_example 3 7, .tick 2])).map (fun f => f.gene.digits) :=
  C2_determinizm_pula 2025
    [.add_example 0 1, .add_example 1 3, .add_example 2 5,
      .add_example 3 7, .tick 2] _ _ rfl rfl

/-- All formulas of a fresh pool start with zero fitness and zero
feedback. -/
theorem kf_pool_init_nulevye (seed : Nat) :
    ∀ f ∈ (kf_pool_init seed).formulas, f.fitness = 0 ∧ f.feedback = 0 := by
  unfold kf_pool_init
  have := foldl_sohranyaet
    (fun (acc : List KolibriFormula × KolibriRng) =>
      ∀ f ∈ acc.1, f.fitness = 0 ∧ f.feedback = 0)
    (fun acc _ =>
      let par := gene_randomize acc.2
      (acc.1 ++ [{ gene := par.1, fitness := 0, feedback := 0, associations := [] }], par.2))
    (List.range 24) ([], k_rng_seed seed) (by simp)
    (by
      intro x b hx f hf
      simp only [List.mem_append, List.mem_singleton] at hf
      rcases hf with hf | hf
      · exact hx f hf
      · subst hf
        exact ⟨rfl, rfl⟩)
  simpa using this

/-- A positive-delta `kf_pool_feedback` aimed at the top formula's gene
adjusts that formula in place (the upward bubble from rank 0 is a
no-op). -/
theorem kf_pool_feedback_golova (pool : KolibriFormulaPool)
    (f : KolibriFormula) (rest : List KolibriFormula) (delta : ℚ)
    (hfs : pool.formulas = f :: rest) (hdelta : 0 < delta) :
    (kf_pool_feedback pool f.gene delta).2 =
      { pool with formulas := adjust_feedback f delta :: rest } := by
  unfold kf_pool_feedback
  rw [hfs]
  rw [if_neg (by simp)]
  rw [show (f :: rest).findIdx? (fun g => g.gene.digits = f.gene.digits) = some 0 by
    rw [List.findIdx?_cons]
    simp]
  simp only [List.getD_cons_zero, List.set_cons_zero, if_pos hdelta,
    probublit_vverh]

/-- C6 counterexample: two `kf_pool_feedback` calls with delta +1.0 on
the best gene of a freshly initialized pool leave that formula with
fitness 2.0 > 1.0 — `adjust_feedback` clamps only the feedback
accumulator, not the fitness, so repeated positive feedback does push
fitness above 1.0, contradicting the claim as stated. -/
theorem C6_kontrprimer_fitness_vyshe_edinicy :
    ((kf_pool_feedback (kf_pool_feedback (kf_pool_init 0)
        ((kf_pool_init 0).formulas.headD formula_default).gene 1).2
        ((kf_pool_init 0).formulas.headD formula_default).gene 1).2.formulas.headD
        formula_default).fitness = 2 ∧ ¬ ((2 : ℚ) ≤ 1) := by
  have hne : (kf_pool_init 0).formulas ≠ [] := by
    intro h
    have := (kf_pool_init_ok 0).1
    rw [h] at this
    simp at this
  obtain ⟨f, rest, hfs⟩ := List.exists_cons_of_ne_nil hne
  obtain ⟨hfit0, hfb0⟩ := kf_pool_init_nulevye 0 f (by rw [hfs]; simp)
  have hgolova : (kf_pool_init 0).formulas.headD formula_default = f := by
    rw [hfs]; rfl
  rw [hgolova]
  have h1 := kf_pool_feedback_golova (kf_pool_init 0) f rest 1 hfs (by norm_num)
  have hadj1 : adjust_feedback f 1 =
      { f with feedback := 1, fitness := 1 } := by
    unfold adjust_feedback
    rw [hfit0, hfb0]
    norm_num
  rw [h1, hadj1]
  have hgene : ({ f with feedback := (1 : ℚ), fitness := (1 : ℚ) }).gene = f.gene := rfl
  have h2 := kf_pool_feedback_golova
    { kf_pool_init 0 with formulas := { f with feedback := (1 : ℚ), fitness := (1 : ℚ) } :: rest }
    { f with feedback := (1 : ℚ), fitness := (1 : ℚ) } rest 1 rfl (by norm_num)
  rw [hgene] at h2
  rw [h2]
  have hadj2 : adjust_feedback { f with feedback := (1 : ℚ), fitness := (1 : ℚ) } 1 =
      { f with feedback := 1, fitness := 2 } := by
    unfold adjust_feedback
    norm_num
  rw [hadj2]
  exact ⟨rfl, by norm_num⟩

/-- C6 (amended): in every pool reachable from `kf_pool_init` through
any call sequence, repeated negative feedback never pushes a formula's
fitness below 0.0 (the floor in `adjust_feedback`), and the feedback
accumulator stays clamped to [-1, 1]; but fitness is not capped at 1.0
by `kf_pool_feedback` itself — it is only clamped back into [0, 1]
when `kf_pool_tick` recomputes it via `apply_feedback_bonus` (see the
counterexample). -/
theorem C6_amended_granicy_obratnoj_svyazi (seed : Nat)
    (ops : List KolibriPoolOp) (f : KolibriFormula)
    (hf : f ∈ (kf_pool_run (kf_pool_init seed) ops).formulas) :
    0 ≤ f.fitness ∧ -1 ≤ f.feedback ∧ f.feedback ≤ 1 :=
  ((kf_pool_run_ok seed ops).2 f hf).1

/-- Witness for the amended C6 at seed 7 after a negative-feedback
call. -/
theorem C6_amended_granicy_obratnoj_svyazi_witness :
    0 ≤ ((kf_pool_run (kf_pool_init 7)
        [.feedback ⟨List.replicate 32 0⟩ (-1)]).formulas.getD 0
        formula_default).fitness :=
  (C6_amended_granicy_obratnoj_svyazi 7 [.feedback ⟨List.replicate 32 0⟩ (-1)]
    _ (getD_mem _ _ _ (by
      rw [(kf_pool_run_ok 7 [.feedback ⟨List.replicate 32 0⟩ (-1)]).1]
      omega))).1

/-- Genes of full length decode successfully at every offset the
numeric rule uses, so `kf_formula_apply` cannot fail. -/
theorem kf_formula_apply_uspeh (f : KolibriFormula)
    (hlen : f.gene.digits.length = 32) (x : Int) :
    (kf_formula_apply f x).isSome := by
  unfold kf_formula_apply
  split
  · simp
  · have h1 : decode_operation f.gene 0 = some (f.gene.digits.getD 0 0 % 4) := by
      unfold decode_operation
      rw [if_neg (by omega)]
    have h2 : ∃ v, decode_signed f.gene 1 = some v := by
      unfold decode_signed
      rw [if_neg (by omega)]
      exact ⟨_, rfl⟩
    have h3 : ∃ v, decode_bias f.gene 4 = some v := by
      unfold decode_bias
      rw [if_neg (by omega)]
      exact ⟨_, rfl⟩
    have h4 : ∃ v, decode_signed f.gene 7 = some v := by
      unfold decode_signed
      rw [if_neg (by omega)]
      exact ⟨_, rfl⟩
    obtain ⟨v2, hv2⟩ := h2
    obtain ⟨v3, hv3⟩ := h3
    obtain ⟨v4, hv4⟩ := h4
    unfold formula_predict_numeric
    rw [h1, hv2, hv3, hv4]
    simp

/-- C10: every formula of every pool reachable from `kf_pool_init`
through any call sequence (ticks included) carries a gene of logical
length exactly 32 — the full capacity — and therefore
`kf_formula_apply` succeeds on it at every input: the malformed-gene
error branch is unreachable for pool-produced formulas. -/
theorem C10_geny_polnoj_dliny (seed : Nat) (ops : List KolibriPoolOp)
    (f : KolibriFormula)
    (hf : f ∈ (kf_pool_run (kf_pool_init seed) ops).formulas) (x : Int) :
    f.gene.digits.length = 32 ∧ (kf_formula_apply f x).isSome :=
  have h := ((kf_pool_run_ok seed ops).2 f hf).2
  ⟨h, kf_formula_apply_uspeh f h x⟩

/-- Witness for C10 at seed 0 after one tick, input 5. -/
theorem C10_geny_polnoj_dliny_witness :
    ((kf_pool_run (kf_pool_init 0) [.tick 1]).formulas.getD 0
        formula_default).gene.digits.length = 32 ∧
      (kf_formula_apply ((kf_pool_run (kf_pool_init 0) [.tick 1]).formulas.getD 0
        formula_default) 5).isSome :=
  C10_geny_polnoj_dliny 0 [.tick 1] _
    (getD_mem _ _ _ (by
      rw [(kf_pool_run_ok 0 [.tick 1]).1]
      omega)) 5

theorem kf_pool_add_association_tablica (pool : KolibriFormulaPool)
    (question answer istochnik : List Nat) (timestamp : Nat) :
    (kf_pool_add_association pool question answer istochnik timestamp).2.associations =
      kf_pool_obnovit_tablicu pool.associations
        (association_set question answer istochnik timestamp) := by
  unfold kf_pool_add_association
  split
  · rename_i heq
    obtain ⟨_, rfl⟩ := kf_pool_add_example_nekotoryj heq
    rfl
  · rfl

/-- The freshly built association always lands in the updated table:
overwritten in place or appended. -/
theorem kf_pool_obnovit_tablicu_soderzhit (tablica : List KolibriAssociation)
    (assoc : KolibriAssociation) :
    assoc ∈ kf_pool_obnovit_tablicu tablica assoc := by
  unfold kf_pool_obnovit_tablicu
  split
  · rename_i i hidx
    have hi : i < tablica.length :=
      (List.findIdx?_eq_some_iff_findIdx_eq.mp hidx).1
    refine List.mem_iff_getElem.mpr ⟨i, by simpa using hi, ?_⟩
    exact List.getElem_set_self _
  · split
    · simp
    · simp

/-- Running `n` `add_example` calls with room to spare grows the
example buffer by exactly `n`. -/
theorem kf_pool_run_primery_dlina (x y : Int) :
    ∀ (n : Nat) (pool : KolibriFormulaPool), pool.inputs.length + n ≤ 64 →
    (kf_pool_run pool
      (List.replicate n (KolibriPoolOp.add_example x y))).inputs.length =
      pool.inputs.length + n := by
  intro n
  induction n with
  | zero =>
    intro pool _
    simp [kf_pool_run]
  | succ n ih =>
    intro pool h
    have hstep : (kf_pool_run_op pool (.add_example x y)).inputs.length =
        pool.inputs.length + 1 := by
      simp only [kf_pool_run_op]
      unfold kf_pool_add_example
      rw [if_neg (by omega)]
      simp
    have h2 := ih (kf_pool_run_op pool (.add_example x y)) (by rw [hstep]; omega)
    unfold kf_pool_run at h2 ⊢
    rw [List.replicate_succ, List.foldl_cons]
    rw [h2, hstep]
    omega

/-- With a full example buffer, `kf_pool_add_association` keeps the
table update, adds no example and reports failure. -/
theorem kf_pool_add_association_pri_polnom (pool : KolibriFormulaPool)
    (question answer istochnik : List Nat) (timestamp : Nat)
    (hfull : 64 ≤ pool.inputs.length) :
    (kf_pool_add_association pool question answer istochnik timestamp).1 = false ∧
    (kf_pool_add_association pool question answer istochnik timestamp).2.inputs
      = pool.inputs ∧
    (kf_pool_add_association pool question answer istochnik timestamp).2.targets
      = pool.targets ∧
    (kf_pool_add_association pool question answer istochnik timestamp).2.associations
      = kf_pool_obnovit_tablicu pool.associations
          (association_set question answer istochnik timestamp) := by
  unfold kf_pool_add_association
  have hnone : kf_pool_add_example
      { pool with associations := kf_pool_obnovit_tablicu pool.associations (association_set question answer istochnik timestamp) }
      (association_set question answer istochnik timestamp).input_hash
      (association_set question answer istochnik timestamp).output_hash = none :=
    kf_pool_add_example_polnyj hfull
  rw [hnone]
  exact ⟨rfl, rfl, rfl, rfl⟩

/-- C8 counterexample: with the numeric example buffer already full
(64 entries), `kf_pool_add_association` modifies the association table
but registers NO numeric example — the call returns the failure code
and `inputs` is unchanged — contradicting the claim's "in every case a
numeric example … is also registered". -/
theorem C8_kontrprimer_primer_ne_zaregistrirovan :
    (kf_pool_add_association
        (kf_pool_run (kf_pool_init 0)
          (List.replicate 64 (.add_example 0 0))) [107] [97] [] 0).1 = false ∧
    (kf_pool_add_association
        (kf_pool_run (kf_pool_init 0)
          (List.replicate 64 (.add_example 0 0))) [107] [97] [] 0).2.inputs =
      (kf_pool_run (kf_pool_init 0)
        (List.replicate 64 (.add_example 0 0))).inputs ∧
    (kf_pool_run (kf_pool_init 0)
      (List.replicate 64 (.add_example 0 0))).inputs.length = 64 := by
  have h0 : (kf_pool_init 0).inputs.length = 0 := rfl
  have hlen : (kf_pool_run (kf_pool_init 0)
      (List.replicate 64 (KolibriPoolOp.add_example 0 0))).inputs.length = 64 := by
    have := kf_pool_run_primery_dlina 0 0 64 (kf_pool_init 0) (by rw [h0])
    rw [h0] at this
    simpa using this
  obtain ⟨hcode, hinputs, _, _⟩ :=
    kf_pool_add_association_pri_polnom
      (kf_pool_run (kf_pool_init 0) (List.replicate 64 (.add_example 0 0)))
      [107] [97] [] 0 hlen.ge
  exact ⟨hcode, hinputs, hlen⟩

/-- With room in the example buffer, `kf_pool_add_association` updates
the table, appends the hash example and reports success. -/
theorem kf_pool_add_association_pri_meste (pool : KolibriFormulaPool)
    (question answer istochnik : List Nat) (timestamp : Nat)
    (hroom : pool.inputs.length < 64) :
    (kf_pool_add_association pool question answer istochnik timestamp).1 = true ∧
    (kf_pool_add_association pool question answer istochnik timestamp).2.inputs
      = pool.inputs ++ [(association_set question answer istochnik timestamp).input_hash] ∧
    (kf_pool_add_association pool question answer istochnik timestamp).2.targets
      = pool.targets ++ [(association_set question answer istochnik timestamp).output_hash] ∧
    (kf_pool_add_association pool question answer istochnik timestamp).2.associations
      = kf_pool_obnovit_tablicu pool.associations
          (association_set question answer istochnik timestamp) := by
  unfold kf_pool_add_association
  have hsome : kf_pool_add_example
      { pool with associations := kf_pool_obnovit_tablicu pool.associations (association_set question answer istochnik timestamp) }
      (association_set question answer istochnik timestamp).input_hash
      (association_set question answer istochnik timestamp).output_hash =
      some { pool with
        associations := kf_pool_obnovit_tablicu pool.associations (association_set question answer istochnik timestamp)
        inputs := pool.inputs ++ [(association_set question answer istochnik timestamp).input_hash]
        targets := pool.targets ++ [(association_set question answer istochnik timestamp).output_hash] } := by
    unfold kf_pool_add_example
    rw [if_neg (show ¬ pool.inputs.length ≥ 64 by omega)]
  rw [hsome]
  exact ⟨rfl, rfl, rfl, rfl⟩

/-- C8 (amended): `kf_pool_add_association` overwrites the first
association with the same hash and question in place; otherwise it
appends, evicting index 0 and shifting left when the 64-entry table is
full; and it registers the hash-pair numeric example provided the
64-entry example buffer has room — when that buffer is full, the table
is still updated but no example is registered and the call fails. -/
theorem C8_amended_povedenie_dobavleniya (pool : KolibriFormulaPool)
    (question answer istochnik : List Nat) (timestamp : Nat) :
    (∀ i, pool.associations.findIdx?
        (fun a => a.input_hash = (association_set question answer istochnik timestamp).input_hash ∧
          a.question = (association_set question answer istochnik timestamp).question) = some i →
      (kf_pool_add_association pool question answer istochnik timestamp).2.associations =
        pool.associations.set i (association_set question answer istochnik timestamp)) ∧
    (pool.associations.findIdx?
        (fun a => a.input_hash = (association_set question answer istochnik timestamp).input_hash ∧
          a.question = (association_set question answer istochnik timestamp).question) = none →
      pool.associations.length < 64 →
      (kf_pool_add_association pool question answer istochnik timestamp).2.associations =
        pool.associations ++ [association_set question answer istochnik timestamp]) ∧
    (pool.associations.findIdx?
        (fun a => a.input_hash = (association_set question answer istochnik timestamp).input_hash ∧
          a.question = (association_set question answer istochnik timestamp).question) = none →
      pool.associations.length = 64 →
      (kf_pool_add_association pool question answer istochnik timestamp).2.associations =
        pool.associations.drop 1 ++ [association_set question answer istochnik timestamp]) ∧
    (pool.inputs.length < 64 →
      (kf_pool_add_association pool question answer istochnik timestamp).1 = true ∧
      (kf_pool_add_association pool question answer istochnik timestamp).2.inputs =
        pool.inputs ++ [(association_set question answer istochnik timestamp).input_hash] ∧
      (kf_pool_add_association pool question answer istochnik timestamp).2.targets =
        pool.targets ++ [(association_set question answer istochnik timestamp).output_hash]) ∧
    (64 ≤ pool.inputs.length →
      (kf_pool_add_association pool question answer istochnik timestamp).1 = false ∧
      (kf_pool_add_association pool question answer istochnik timestamp).2.inputs =
        pool.inputs) := by
  refine ⟨?_, ?_, ?_, ?_, ?_⟩
  · intro i hidx
    rw [kf_pool_add_association_tablica]
    unfold kf_pool_obnovit_tablicu
    simp only [hidx]
  · intro hidx hlt
    rw [kf_pool_add_association_tablica]
    unfold kf_pool_obnovit_tablicu
    simp only [hidx]
    rw [if_neg (by omega)]
  · intro hidx heq
    rw [kf_pool_add_association_tablica]
    unfold kf_pool_obnovit_tablicu
    simp only [hidx]
    rw [if_pos (by omega)]
  · intro hroom
    obtain ⟨h1, h2, h3, _⟩ :=
      kf_pool_add_association_pri_meste pool question answer istochnik timestamp hroom
    exact ⟨h1, h2, h3⟩
  · intro hfull
    obtain ⟨h1, h2, _, _⟩ :=
      kf_pool_add_association_pri_polnom pool question answer istochnik timestamp hfull
    exact ⟨h1, h2⟩

/-- Witness for the amended C8 on a fresh pool (empty table, room in
the buffer). -/
theorem C8_amended_povedenie_dobavleniya_witness :
    (kf_pool_add_association (kf_pool_init 0) [107] [97] [] 0).2.associations =
      (kf_pool_init 0).associations ++ [association_set [107] [97] [] 0] ∧
    (kf_pool_add_association (kf_pool_init 0) [107] [97] [] 0).1 = true := by
  have h := C8_amended_povedenie_dobavleniya (kf_pool_init 0) [107] [97] [] 0
  exact ⟨h.2.1 rfl (by decide), (h.2.2.2.1 (by decide)).1⟩

/-- C9: when the numeric example buffer is full, the association-table
change of `kf_pool_add_association` is kept (the new association is in
the table — inserted or overwritten in place), no example is added,
and the failure code is returned: the table update is not rolled
back. -/
theorem C9_tablica_sohranyaetsya_pri_otkaze (pool : KolibriFormulaPool)
    (question answer istochnik : List Nat) (timestamp : Nat)
    (hfull : 64 ≤ pool.inputs.length) :
    (kf_pool_add_association pool question answer istochnik timestamp).1 = false ∧
    (kf_pool_add_association pool question answer istochnik timestamp).2.associations
      = kf_pool_obnovit_tablicu pool.associations
          (association_set question answer istochnik timestamp) ∧
    association_set question answer istochnik timestamp ∈
      (kf_pool_add_association pool question answer istochnik timestamp).2.associations ∧
    (kf_pool_add_association pool question answer istochnik timestamp).2.inputs
      = pool.inputs := by
  obtain ⟨h1, h2, _, h4⟩ :=
    kf_pool_add_association_pri_polnom pool question answer istochnik timestamp hfull
  refine ⟨h1, h4, ?_, h2⟩
  rw [h4]
  exact kf_pool_obnovit_tablicu_soderzhit _ _

/-- Witness for C9 on a pool whose example buffer was filled by 64
`add_example` calls. -/
theorem C9_tablica_sohranyaetsya_pri_otkaze_witness :
    (kf_pool_add_association
        (kf_pool_run (kf_pool_init 0) (List.replicate 64 (.add_example 1 2)))
        [113] [111] [] 5).1 = false ∧
    (kf_pool_add_association
        (kf_pool_run (kf_pool_init 0) (List.replicate 64 (.add_example 1 2)))
        [113] [111] [] 5).2.associations
      = kf_pool_obnovit_tablicu
          (kf_pool_run (kf_pool_init 0) (List.replicate 64 (.add_example 1 2))).associations
          (association_set [113] [111] [] 5) ∧
    association_set [113] [111] [] 5 ∈
      (kf_pool_add_association
        (kf_pool_run (kf_pool_init 0) (List.replicate 64 (.add_example 1 2)))
        [113] [111] [] 5).2.associations ∧
    (kf_pool_add_association
        (kf_pool_run (kf_pool_init 0) (List.replicate 64 (.add_example 1 2)))
        [113] [111] [] 5).2.inputs
      = (kf_pool_run (kf_pool_init 0) (List.replicate 64 (.add_example 1 2))).inputs := by
  apply C9_tablica_sohranyaetsya_pri_otkaze
  have h0 : (kf_pool_init 0).inputs.length = 0 := rfl
  have := kf_pool_run_primery_dlina 1 2 64 (kf_pool_init 0) (by rw [h0])
  rw [h0] at this
  omega

/-! ## Wire message codec (src/backend/src/net.c) -/

/-- Modelled from the spec: `kolibri/net.h` (with the numeric values of
the `KolibriNetMessageType` enum) is not under src/; the spec fixes
only the three message kinds, so tag values 1/2/3 are chosen here.
Nothing proved below depends on the numeric values. -/
def KOLIBRI_MSG_HELLO : Nat := 1

/-- Modelled from the spec: see `KOLIBRI_MSG_HELLO`. -/
def KOLIBRI_MSG_MIGRATE_RULE : Nat := 2

/-- Modelled from the spec: see `KOLIBRI_MSG_HELLO`. -/
def KOLIBRI_MSG_ACK : Nat := 3

/-- Big-endian value of a byte list (`ntohl`/`kolibri_ntohll` of the
`memcpy`'d bytes). -/
def kn_be_znachenie (bajty : List Nat) : Nat :=
  bajty.foldl (fun acc b => acc * 256 + b) 0

/-- The decoded message (`KolibriNetMessage`), as a proper sum type.
For `MIGRATE_RULE` the C code zeroes a 32-byte digit array and copies
`length` bytes into it; `digits` is that padded array.  The 8 fitness
bytes are a raw big-endian `double` bit pattern; they are kept
uninterpreted (`fitness_bits`) — no claim below reads them as a
number. -/
inductive KolibriNetMessage where
  | hello (node_id : Nat)
  | migrate_rule (node_id : Nat) (digits : List Nat) (dlina : Nat) (fitness_bits : Nat)
  | ack (status : Nat)
  deriving Repr, DecidableEq

/-- The declared payload length of a framed buffer: byte 0 is the type
tag, bytes 1–2 the big-endian length. -/
def kn_zayavlennaya_dlina (buffer : List Nat) : Nat :=
  buffer.getD 1 0 * 256 + buffer.getD 2 0

/-- `kn_message_decode`: header check, declared-length-vs-buffer check,
then the per-type layout checks of net.c.  Any failure yields `none` —
there is no partially decoded message. -/
def kn_message_decode (buffer : List Nat) : Option KolibriNetMessage :=
  if buffer.length < 3 then none
  else
    let payload_len := kn_zayavlennaya_dlina buffer
    if buffer.length < 3 + payload_len then none
    else
      let payload := buffer.drop 3
      if buffer.getD 0 0 = KOLIBRI_MSG_HELLO then
        if payload_len ≠ 4 then none
        else some (.hello (kn_be_znachenie (payload.take 4)))
      else if buffer.getD 0 0 = KOLIBRI_MSG_MIGRATE_RULE then
        if payload_len < 4 + 1 + 8 then none
        else
          let dlina := payload.getD 4 0
          if dlina > 32 ∨ payload_len < 5 + dlina + 8 then none
          else some (.migrate_rule
            (kn_be_znachenie (payload.take 4))
            ((payload.drop 5).take dlina ++ List.replicate (32 - dlina) 0)
            dlina
            (kn_be_znachenie ((payload.drop (5 + dlina)).take 8)))
      else if buffer.getD 0 0 = KOLIBRI_MSG_ACK then
        if payload_len ≠ 1 then none
        else some (.ack (payload.getD 0 0))
      else none

/-- C7 counterexample: a MIGRATE_RULE frame whose declared payload
length is 14 — one byte longer than the exact layout for its gene
length 0 (4-byte node id + 1-byte length + 0 gene bytes + 8 fitness
bytes = 13) — still decodes successfully: the decoder only requires
`payload_len ≥ 13 + gene_len`, so the claim's "succeeds only when the
declared payload length exactly matches the per-type layout" is
false. -/
theorem C7_kontrprimer_izbytochnaya_dlina :
    kn_message_decode ([2, 0, 14] ++ List.replicate 14 0) =
      some (.migrate_rule 0 (List.replicate 32 0) 0 0) ∧
    (14 : Nat) ≠ 4 + 1 + 0 + 8 := by
  constructor
  · decide
  · decide

/-- C7 (amended): `kn_message_decode` succeeds exactly when the buffer
holds the 3-byte header plus the declared payload, and the declared
payload length matches the per-type layout — exactly 4 bytes for
HELLO and exactly 1 for ACK, while for MIGRATE_RULE any
`payload_len ≥ 13 + gene_len` with `gene_len ≤ 32` is accepted
(trailing payload bytes beyond the layout are ignored, not rejected).
Failures produce no partially-parsed message (`none`). -/
theorem C7_amended_usloviya_dekodirovaniya (buffer : List Nat) :
    (kn_message_decode buffer).isSome ↔
      (3 ≤ buffer.length ∧
        3 + kn_zayavlennaya_dlina buffer ≤ buffer.length ∧
        ((buffer.getD 0 0 = KOLIBRI_MSG_HELLO ∧
            kn_zayavlennaya_dlina buffer = 4) ∨
         (buffer.getD 0 0 = KOLIBRI_MSG_MIGRATE_RULE ∧
            (buffer.drop 3).getD 4 0 ≤ 32 ∧
            13 + (buffer.drop 3).getD 4 0 ≤ kn_zayavlennaya_dlina buffer) ∨
         (buffer.getD 0 0 = KOLIBRI_MSG_ACK ∧
            kn_zayavlennaya_dlina buffer = 1))) := by
  unfold kn_message_decode
  by_cases h1 : buffer.length < 3
  · rw [if_pos h1]
    simp only [Option.isSome_none, Bool.false_eq_true, false_iff]
    intro hc
    omega
  · rw [if_neg h1]
    by_cases h2 : buffer.length < 3 + kn_zayavlennaya_dlina buffer
    · rw [if_pos h2]
      simp only [Option.isSome_none, Bool.false_eq_true, false_iff]
      intro hc
      omega
    · rw [if_neg h2]
      by_cases h3 : buffer.getD 0 0 = KOLIBRI_MSG_HELLO
      · rw [if_pos h3]
        by_cases h4 : kn_zayavlennaya_dlina buffer ≠ 4
        · rw [if_pos h4]
          simp only [Option.isSome_none, Bool.false_eq_true, false_iff]
          intro hc
          rcases hc.2.2 with h | h | h
          · exact h4 h.2
          · rw [h3] at h
            simp [KOLIBRI_MSG_HELLO, KOLIBRI_MSG_MIGRATE_RULE] at h
          · rw [h3] at h
            simp [KOLIBRI_MSG_HELLO, KOLIBRI_MSG_ACK] at h
        · rw [if_neg h4]
          simp only [Option.isSome_some, true_iff]
          push_neg at h4
          exact ⟨by omega, by omega, Or.inl ⟨h3, h4⟩⟩
      · rw [if_neg h3]
        by_cases h5 : buffer.getD 0 0 = KOLIBRI_MSG_MIGRATE_RULE
        · rw [if_pos h5]
          by_cases h6 : kn_zayavlennaya_dlina buffer < 4 + 1 + 8
          · rw [if_pos h6]
            simp only [Option.isSome_none, Bool.false_eq_true, false_iff]
            intro hc
            rcases hc.2.2 with h | h | h
            · exact h3 h.1
            · omega
            · rw [h5] at h
              simp [KOLIBRI_MSG_ACK, KOLIBRI_MSG_MIGRATE_RULE] at h
          · rw [if_neg h6]
            by_cases h7 : (buffer.drop 3).getD 4 0 > 32 ∨
                kn_zayavlennaya_dlina buffer < 5 + (buffer.drop 3).getD 4 0 + 8
            · rw [if_pos h7]
              simp only [Option.isSome_none, Bool.false_eq_true, false_iff]
              intro hc
              rcases hc.2.2 with h | h | h
              · exact h3 h.1
              · omega
              · rw [h5] at h
                simp [KOLIBRI_MSG_ACK, KOLIBRI_MSG_MIGRATE_RULE] at h
            · rw [if_neg h7]
              simp only [Option.isSome_some, true_iff]
              push_neg at h7
              exact ⟨by omega, by omega, Or.inr (Or.inl ⟨h5, by omega, by omega⟩)⟩
        · rw [if_neg h5]
          by_cases h8 : buffer.getD 0 0 = KOLIBRI_MSG_ACK
          · rw [if_pos h8]
            by_cases h9 : kn_zayavlennaya_dlina buffer ≠ 1
            · rw [if_pos h9]
              simp only [Option.isSome_none, Bool.false_eq_true, false_iff]
              intro hc
              rcases hc.2.2 with h | h | h
              · exact h3 h.1
              · exact h5 h.1
              · exact h9 h.2
            · rw [if_neg h9]
              simp only [Option.isSome_some, true_iff]
              push_neg at h9
              exact ⟨by omega, by omega, Or.inr (Or.inr ⟨h8, h9⟩)⟩
          · rw [if_neg h8]
            simp only [Option.isSome_none, Bool.false_eq_true, false_iff]
            intro hc
            rcases hc.2.2 with h | h | h
            · exact h3 h.1
            · exact h5 h.1
            · exact h8 h.1

/-- Witness for the amended C7 on a well-formed HELLO frame. -/
theorem C7_amended_usloviya_dekodirovaniya_witness :
    (kn_message_decode [1, 0, 4, 0, 0, 0, 42]).isSome :=
  (C7_amended_usloviya_dekodirovaniya [1, 0, 4, 0, 0, 0, 42]).mpr
    ⟨by decide, by decide, Or.inl ⟨by decide, by decide⟩⟩

/-! ## Genome ledger (src/backend/src/genome.c)

The ledger is modelled byte-exactly: a file is its `List Nat` of byte
values, lines are produced by the `fgets(stroka, 1024, …)` loop
(newline-terminated chunks capped at 1023 bytes), and
`razobrat_stroku`'s `sscanf` format
`"%llu,%llu,%64[^,],%64[^,],%96[^,],%768[^\n]"` is modelled including
its whitespace/sign handling, its `%02x` hex-pair parsing (which
accepts both cases and skips whitespace) and `strtoull` saturation.
The HMAC-SHA256 collaborator is a parameter `H : key → message → tag`;
`sobrat_paket` serializes exactly the bytes the C code feeds to
`HMAC()` on a little-endian host (the `memcpy`s of `uint64_t`/
`uint16_t` fields).  The open-for-write/'Missing' file-system paths
are outside the byte-level model: `kg_verify_file`/`kg_replay` here
take the file's bytes (the `Missing` result presupposes no file at
all), and `kg_append` appends to an in-memory line list (an `fprintf`
whose success is environmental).  `time(NULL)` is an environment
input, passed as the `metka` argument. -/

/-- One ledger record (`ReasonBlock`): the `*_len` fields of the C
struct are the list lengths. -/
structure ReasonBlock where
  index : Nat
  timestamp : Nat
  prev_hash : List Nat
  hmac : List Nat
  event_digits : List Nat
  payload_digits : List Nat
  deriving Repr, DecidableEq

/-- Default record for (provably in-bounds) indexing. -/
def reason_blok_default : ReasonBlock :=
  ⟨0, 0, [], [], [], []⟩

/-- Little-endian byte image of a `width`-byte unsigned field, as
`memcpy` produces on the x86-64 host the repository targets. -/
def kolibri_le_bajty (width value : Nat) : List Nat :=
  (List.range width).map (fun i => value / 256 ^ i % 256)

/-- `sobrat_paket`: the exact byte string handed to `HMAC()` —
8-byte index, 8-byte timestamp, the 32 `prev_hash` bytes, 2-byte
event length, the event digits, 2-byte payload length, the payload
digits.  (The `hmac` field is not part of the signed content.) -/
def sobrat_paket (blok : ReasonBlock) : List Nat :=
  kolibri_le_bajty 8 blok.index ++ kolibri_le_bajty 8 blok.timestamp ++
  blok.prev_hash ++
  kolibri_le_bajty 2 blok.event_digits.length ++ blok.event_digits ++
  kolibri_le_bajty 2 blok.payload_digits.length ++ blok.payload_digits

/-- Modelled from the spec: the HMAC-SHA256 primitive is an external
collaborator ("used as a black box", spec §1/§6); theorems about
tampering take the function and its non-collision on the relevant pair
as hypotheses.  This concrete stand-in (a 32-byte keyed fold) is used
only to build explicit witness ledgers. -/
def hmac_model (klyuch soobschenie : List Nat) : List Nat :=
  (List.range 32).map (fun i =>
    (soobschenie.foldl (fun h b => (h * 131 + b + 7) % 4294967291)
      (klyuch.foldl (fun h b => (h * 131 + b + 11) % 4294967291)
        (i * 2654435761 % 4294967291))) % 256)

/-- `preobrazovat_v_hex`: lowercase hex rendering, two characters per
byte. -/
def hex_znak (v : Nat) : Nat :=
  if v < 10 then 48 + v else 87 + v

def preobrazovat_v_hex : List Nat → List Nat
  | [] => []
  | b :: rest => hex_znak (b / 16 % 16) :: hex_znak (b % 16) :: preobrazovat_v_hex rest

/-- `preobrazovat_cifry_v_stroku`: ASCII rendering of a digit field
(fails on a non-digit or an undersized destination, as in C). -/
def preobrazovat_cifry_v_stroku (cifry : List Nat) (razmer : Nat) :
    Option (List Nat) :=
  if razmer ≤ cifry.length then none
  else if cifry.any (fun d => d > 9) then none
  else some (cifry.map (· + 48))

/-- The `%llu` print of `fprintf`: decimal digits, no leading zeros. -/
def kolibri_nat_v_ascii (n : Nat) : List Nat :=
  (cifry_starshie n (kolibri_podschitat_cifry n)).map (· + 48)

/-- The exact line `kg_append` writes:
`index,timestamp,prev_hex,hmac_hex,event_ascii,payload_ascii\n`. -/
def kg_stroka_bloka (blok : ReasonBlock) : List Nat :=
  kolibri_nat_v_ascii blok.index ++ [44] ++
  kolibri_nat_v_ascii blok.timestamp ++ [44] ++
  preobrazovat_v_hex blok.prev_hash ++ [44] ++
  preobrazovat_v_hex blok.hmac ++ [44] ++
  blok.event_digits.map (· + 48) ++ [44] ++
  blok.payload_digits.map (· + 48) ++ [10]

/-- A whole ledger file from its records. -/
def kg_fajl_iz_blokov (bloki : List ReasonBlock) : List Nat :=
  (bloki.map kg_stroka_bloka).flatten

/-- `preobrazovat_stroku_v_cifry`: digit-encode a text into a field of
capacity `emkost` (3 digits per byte; fails when the text is too
long). -/
def preobrazovat_stroku_v_cifry (tekst : List Nat) (emkost : Nat) :
    Option (List Nat) :=
  if tekst.length * 3 > emkost then none
  else
    (kolibri_transducirovat_utf8 (kolibri_potok_cifr_init emkost) tekst).map
      (fun p => p.cifry)

/-- The in-memory ledger context (`KolibriGenome`): chain tip, next
index, and the lines appended so far (the file contents). -/
structure KolibriGenome where
  last_hash : List Nat
  next_index : Nat
  stroki : List (List Nat)
  deriving Repr, DecidableEq

/-- The context `kg_open` establishes on a fresh (empty or absent)
file: all-zero chain tip, index 0. -/
def kg_svezhij : KolibriGenome :=
  ⟨List.replicate 32 0, 0, []⟩

/-- `kg_append`: note the C source increments `next_index`
(`blok.index = kontekst->next_index++;`) *before* any validation, and
none of the failure paths restores it; `last_hash` is advanced right
after the HMAC succeeds, before the ASCII rendering and the write.
This model reproduces those orders exactly. -/
def kg_append (H : List Nat → List Nat → List Nat) (klyuch : List Nat)
    (kontekst : KolibriGenome) (tip_sobytiya nagruzka : List Nat)
    (metka : Nat) : Option ReasonBlock × KolibriGenome :=
  let indeks := kontekst.next_index
  let k1 : KolibriGenome := { kontekst with next_index := kontekst.next_index + 1 }
  match preobrazovat_stroku_v_cifry tip_sobytiya 96 with
  | none => (none, k1)
  | some event_digits =>
    match preobrazovat_stroku_v_cifry nagruzka 768 with
    | none => (none, k1)
    | some payload_digits =>
      let blok : ReasonBlock :=
        { index := indeks, timestamp := metka,
          prev_hash := kontekst.last_hash, hmac := [],
          event_digits := event_digits, payload_digits := payload_digits }
      let tag := H klyuch (sobrat_paket blok)
      if tag.length ≠ 32 then (none, k1)
      else
        let blok2 := { blok with hmac := tag }
        let k2 : KolibriGenome := { k1 with last_hash := tag }
        match preobrazovat_cifry_v_stroku blok2.event_digits 97,
            preobrazovat_cifry_v_stroku blok2.payload_digits 769 with
        | some _, some _ =>
          (some blok2, { k2 with stroki := k2.stroki ++ [kg_stroka_bloka blok2] })
        | _, _ => (none, k2)

/-! ### The byte-level line parser of verify/replay -/

/-- scanf whitespace class (space, \t, \n, \v, \f, \r). -/
def kg_probel (c : Nat) : Bool :=
  c = 32 ∨ (9 ≤ c ∧ c ≤ 13)

/-- ASCII decimal digit. -/
def kg_cifra (c : Nat) : Bool :=
  48 ≤ c ∧ c ≤ 57

/-- The `%llu` conversion of `sscanf`: skip whitespace, optional sign,
one or more digits (`strtoull` saturates at `ULLONG_MAX`; a `-` sign
wraps modulo 2^64). -/
def kg_skan_ulli (s : List Nat) : Option (Nat × List Nat) :=
  let s1 := s.dropWhile kg_probel
  let so_znakom := s1.headD 0 = 43 ∨ s1.headD 0 = 45
  let s2 := if so_znakom then s1.tail else s1
  let cifry := s2.takeWhile kg_cifra
  if cifry.length = 0 then none
  else
    let syroe := cifry.foldl (fun acc c => acc * 10 + (c - 48)) 0
    let nasyschennoe := if syroe > 2 ^ 64 - 1 then 2 ^ 64 - 1 else syroe
    let znachenie :=
      if s1.headD 0 = 45 then (2 ^ 64 - nasyschennoe % 2 ^ 64) % 2 ^ 64
      else nasyschennoe
    some (znachenie, s2.drop cifry.length)

/-- A literal character of the `sscanf` format. -/
def kg_ozhidat (c : Nat) (s : List Nat) : Option (List Nat) :=
  match s with
  | x :: rest => if x = c then some rest else none
  | [] => none

/-- A `%N[^z]` scanset: the longest prefix (capped at `maks`) of
characters other than `z`; fails when empty. -/
def kg_skan_pole (zapret maks : Nat) (s : List Nat) :
    Option (List Nat × List Nat) :=
  let pole := (s.takeWhile (fun c => c ≠ zapret)).take maks
  if pole.length = 0 then none
  else some (pole, s.drop pole.length)

/-- The six raw fields of one ledger line. -/
structure KgPolya where
  indeks : Nat
  metka : Nat
  pred_hex : List Nat
  hmac_hex : List Nat
  sobytie : List Nat
  nagruzka : List Nat
  deriving Repr, DecidableEq

/-- The `sscanf(stroka, "%llu,%llu,%64[^,],%64[^,],%96[^,],%768[^\n]", …)`
call of `razobrat_stroku` (`sovpalo == 6` iff `some`); the line is cut
at the first NUL, as for any C string. -/
def razobrat_polya (stroka : List Nat) : Option KgPolya := do
  let s0 := stroka.takeWhile (fun c => c ≠ 0)
  let (indeks, s1) ← kg_skan_ulli s0
  let s2 ← kg_ozhidat 44 s1
  let (metka, s3) ← kg_skan_ulli s2
  let s4 ← kg_ozhidat 44 s3
  let (pred_hex, s5) ← kg_skan_pole 44 64 s4
  let s6 ← kg_ozhidat 44 s5
  let (hmac_hex, s7) ← kg_skan_pole 44 64 s6
  let s8 ← kg_ozhidat 44 s7
  let (sobytie, s9) ← kg_skan_pole 44 96 s8
  let s10 ← kg_ozhidat 44 s9
  let (nagruzka, _) ← kg_skan_pole 10 768 s10
  some ⟨indeks, metka, pred_hex, hmac_hex, sobytie, nagruzka⟩

/-- `preobrazovat_ascii_v_cifry`: a digit field back to digits; the
length must fit the capacity, be a multiple of 3, and every character
must be `'0'..'9'`. -/
def preobrazovat_ascii_v_cifry (stroka : List Nat) (emkost : Nat) :
    Option (List Nat) :=
  if stroka.length > emkost then none
  else if stroka.length % 3 ≠ 0 then none
  else if stroka.any (fun c => ¬ kg_cifra c) then none
  else some (stroka.map (fun c => c - 48))

/-- One hex character (both cases, as `%x` accepts). -/
def kg_hex_cifra (c : Nat) : Option Nat :=
  if 48 ≤ c ∧ c ≤ 57 then some (c - 48)
  else if 97 ≤ c ∧ c ≤ 102 then some (c - 87)
  else if 65 ≤ c ∧ c ≤ 70 then some (c - 55)
  else none

/-- One `sscanf(stroka + 2*i, "%02x", …)` call: skip whitespace (which
may run past the two-character pair), an optional sign (a `-` wraps in
the `unsigned int` before the `unsigned char` store), then at most two
hex digits — at least one.  (A `0x`-prefix pair parses as the bare
`0`, matching `strtoul`'s no-digits-after-prefix behaviour.) -/
def kg_hex_para (s : List Nat) : Option Nat :=
  match s.dropWhile kg_probel with
  | [] => none
  | c1 :: rest =>
    if c1 = 43 ∨ c1 = 45 then
      match rest with
      | [] => none
      | c2 :: _ =>
        match kg_hex_cifra c2 with
        | none => none
        | some v => some (if c1 = 45 then (256 - v % 256) % 256 else v)
    else
      match kg_hex_cifra c1 with
      | none => none
      | some v1 =>
        match rest with
        | [] => some v1
        | c2 :: _ =>
          match kg_hex_cifra c2 with
          | none => some v1
          | some v2 => some ((v1 * 16 + v2) % 256)

/-- The pair loop of `preobrazovat_hex_v_bajty`: pair `i` is parsed at
offset `2*i` of the original string. -/
def kg_hex_bajty_aux (stroka : List Nat) : Nat → Option (List Nat)
  | 0 => some []
  | n + 1 => do
    let b ← kg_hex_para stroka
    let rest ← kg_hex_bajty_aux (stroka.drop 2) n
    some (b :: rest)

/-- `preobrazovat_hex_v_bajty`: even length, exactly `razmer` pairs. -/
def preobrazovat_hex_v_bajty (stroka : List Nat) (razmer : Nat) :
    Option (List Nat) :=
  if stroka.length % 2 ≠ 0 ∨ stroka.length / 2 ≠ razmer then none
  else kg_hex_bajty_aux stroka razmer

/-- `razobrat_stroku`: parse one line and check it against the
expected chain position — field parse, digit fields, index, both hex
fields, `prev_hash` against the running chain value, then the
recomputed HMAC against the stored tag, in the C order. -/
def razobrat_stroku (H : List Nat → List Nat → List Nat)
    (klyuch stroka ozhidaemyj_prev : List Nat) (ozhidaemyj_indeks : Nat) :
    Option ReasonBlock := do
  let polya ← razobrat_polya stroka
  let event_digits ← preobrazovat_ascii_v_cifry polya.sobytie 96
  let payload_digits ← preobrazovat_ascii_v_cifry polya.nagruzka 768
  if polya.indeks ≠ ozhidaemyj_indeks then none
  else do
    let prev ← preobrazovat_hex_v_bajty polya.pred_hex 32
    let hm ← preobrazovat_hex_v_bajty polya.hmac_hex 32
    if prev ≠ ozhidaemyj_prev then none
    else
      let blok : ReasonBlock :=
        { index := polya.indeks, timestamp := polya.metka,
          prev_hash := prev, hmac := hm,
          event_digits := event_digits, payload_digits := payload_digits }
      let vychisleno := H klyuch (sobrat_paket blok)
      if vychisleno.length ≠ 32 then none
      else if vychisleno ≠ hm then none
      else some blok

/-- One `fgets(stroka, 1024, f)` call: up to the newline inclusive,
capped at 1023 bytes. -/
def kg_vzyat_stroku (fajl : List Nat) : List Nat :=
  let okno := fajl.take 1023
  let telo := okno.takeWhile (fun c => c ≠ 10)
  if telo.length < okno.length then telo ++ [10] else telo

/-- The `fgets` loop: split the file into lines.  Each iteration
consumes at least one byte, so `fajl.length` bytes of fuel always
suffice; the fuel keeps the recursion structural (kernel-reducible). -/
def kg_stroki_fajla_aux : Nat → List Nat → List (List Nat)
  | 0, _ => []
  | _ + 1, [] => []
  | gorjuchee + 1, fajl =>
    kg_vzyat_stroku fajl ::
      kg_stroki_fajla_aux gorjuchee (fajl.drop (kg_vzyat_stroku fajl).length)

def kg_stroki_fajla (fajl : List Nat) : List (List Nat) :=
  kg_stroki_fajla_aux fajl.length fajl

/-- The verify/replay result (the `Missing` case presupposes the file
is absent and is outside this byte-level model). -/
inductive KgProverka where
  | ok
  | corrupt
  deriving Repr, DecidableEq

/-- The scan loop shared by `kg_verify_file` and `kg_open`. -/
def kg_proverit_stroki (H : List Nat → List Nat → List Nat)
    (klyuch : List Nat) :
    List Nat → Nat → List (List Nat) → KgProverka
  | _, _, [] => .ok
  | prev, idx, stroka :: rest =>
    match razobrat_stroku H klyuch stroka prev idx with
    | none => .corrupt
    | some blok => kg_proverit_stroki H klyuch blok.hmac (blok.index + 1) rest

/-- `kg_verify_file` over the file's bytes. -/
def kg_verify_file (H : List Nat → List Nat → List Nat)
    (klyuch fajl : List Nat) : KgProverka :=
  kg_proverit_stroki H klyuch (List.replicate 32 0) 0 (kg_stroki_fajla fajl)

/-- The replay loop, with an always-accepting visitor: returns the
records the visitor is invoked on, in order, plus the final result. -/
def kg_replay_stroki (H : List Nat → List Nat → List Nat)
    (klyuch : List Nat) :
    List Nat → Nat → List (List Nat) → List ReasonBlock × KgProverka
  | _, _, [] => ([], .ok)
  | prev, idx, stroka :: rest =>
    match razobrat_stroku H klyuch stroka prev idx with
    | none => ([], .corrupt)
    | some blok =>
      let par := kg_replay_stroki H klyuch blok.hmac (blok.index + 1) rest
      (blok :: par.1, par.2)

/-- `kg_replay` over the file's bytes. -/
def kg_replay (H : List Nat → List Nat → List Nat)
    (klyuch fajl : List Nat) : List ReasonBlock × KgProverka :=
  kg_replay_stroki H klyuch (List.replicate 32 0) 0 (kg_stroki_fajla fajl)

/-! ### Append sequences and the hash chain -/

/-- A sequence of `kg_append` calls (event text, payload text,
`time(NULL)` value), collecting each call's result. -/
def kg_zapustit (H : List Nat → List Nat → List Nat) (klyuch : List Nat)
    (kontekst : KolibriGenome) :
    List (List Nat × List Nat × Nat) → List (Option ReasonBlock) × KolibriGenome
  | [] => ([], kontekst)
  | (sobytie, nagruzka, metka) :: rest =>
    let par := kg_append H klyuch kontekst sobytie nagruzka metka
    let dalee := kg_zapustit H klyuch par.2 rest
    (par.1 :: dalee.1, dalee.2)

/-- The hash-chain predicate of spec §4.2: indices count up from
`nachalo` and each record's `prev_hash` is the previous record's HMAC
tag, rooted at `koren`. -/
def kg_tsepochka (koren : List Nat) (nachalo : Nat) : List ReasonBlock → Prop
  | [] => True
  | b :: rest =>
    b.index = nachalo ∧ b.prev_hash = koren ∧ kg_tsepochka b.hmac (nachalo + 1) rest

/-- The chain tip after a list of records. -/
def kg_konets_prev (prev : List Nat) (bs : List ReasonBlock) : List Nat :=
  (bs.map (·.hmac)).getLastD prev

/-- The expected index after a list of records. -/
def kg_konets_idx (idx : Nat) (bs : List ReasonBlock) : Nat :=
  match bs.getLast? with
  | some b => b.index + 1
  | none => idx

/-- Inversion of a successful `kg_append`: the record takes the old
tip and index, and the context advances to the record's tag and the
next index. -/
theorem kg_append_uspeh (H : List Nat → List Nat → List Nat) (klyuch : List Nat)
    (kontekst : KolibriGenome) (sobytie nagruzka : List Nat) (metka : Nat)
    (blok : ReasonBlock) (k2 : KolibriGenome)
    (h : kg_append H klyuch kontekst sobytie nagruzka metka = (some blok, k2)) :
    blok.index = kontekst.next_index ∧ blok.prev_hash = kontekst.last_hash ∧
    blok.timestamp = metka ∧
    k2.next_index = kontekst.next_index + 1 ∧ k2.last_hash = blok.hmac := by
  unfold kg_append at h
  cases h1 : preobrazovat_stroku_v_cifry sobytie 96 with
  | none => rw [h1] at h; simp at h
  | some ed =>
    rw [h1] at h
    cases h2 : preobrazovat_stroku_v_cifry nagruzka 768 with
    | none => rw [h2] at h; simp at h
    | some pd =>
      rw [h2] at h
      dsimp only at h
      split at h
      · simp at h
      · split at h
        · rename_i hh1 hh2
          rw [Prod.mk.injEq] at h
          obtain ⟨hb, hk⟩ := h
          cases hb
          subst hk
          refine ⟨rfl, rfl, rfl, rfl, rfl⟩
        · rw [Prod.mk.injEq] at h
          simp at h

/-- Successful append sequences build the hash chain from the current
context's tip and index. -/
theorem kg_zapustit_tsepochka (H : List Nat → List Nat → List Nat)
    (klyuch : List Nat) (zapisi : List (List Nat × List Nat × Nat)) :
    ∀ (kontekst : KolibriGenome) (bs : List ReasonBlock),
    (kg_zapustit H klyuch kontekst zapisi).1 = bs.map some →
    kg_tsepochka kontekst.last_hash kontekst.next_index bs := by
  induction zapisi with
  | nil =>
    intro kontekst bs h
    simp only [kg_zapustit] at h
    cases bs with
    | nil => trivial
    | cons b bs' => simp at h
  | cons z rest ih =>
    obtain ⟨sobytie, nagruzka, metka⟩ := z
    intro kontekst bs h
    rcases hk : kg_append H klyuch kontekst sobytie nagruzka metka with ⟨r, k2⟩
    simp only [kg_zapustit, hk] at h
    cases bs with
    | nil => simp at h
    | cons b bs' =>
      simp only [List.map_cons, List.cons.injEq] at h
      obtain ⟨hr, hrest⟩ := h
      subst hr
      obtain ⟨hidx, hprev, _, hnext, hlast⟩ :=
        kg_append_uspeh H klyuch kontekst sobytie nagruzka metka b k2 hk
      have hcep := ih k2 bs' hrest
      rw [hnext, hlast] at hcep
      exact ⟨hidx, hprev, hcep⟩

/-- C4: every sequence of successful `kg_append` calls on a fresh
ledger produces records whose indices are 0, 1, 2, … and whose
`prev_hash` chain starts at the all-zero root, each later record
linking to the previous record's HMAC tag. -/
theorem C4_tsepochka_zhurnala (H : List Nat → List Nat → List Nat)
    (klyuch : List Nat) (zapisi : List (List Nat × List Nat × Nat))
    (bs : List ReasonBlock)
    (h : (kg_zapustit H klyuch kg_svezhij zapisi).1 = bs.map some) :
    kg_tsepochka (List.replicate 32 0) 0 bs :=
  kg_zapustit_tsepochka H klyuch zapisi kg_svezhij bs h

/-- Witness for C4: two appends with empty texts under a constant tag
function; the produced chain is explicit. -/
theorem C4_tsepochka_zhurnala_witness :
    (kg_zapustit (fun _ _ => List.replicate 32 0) [7] kg_svezhij
        [([], [], 5), ([], [], 6)]).1 =
      ([⟨0, 5, List.replicate 32 0, List.replicate 32 0, [], []⟩,
        ⟨1, 6, List.replicate 32 0, List.replicate 32 0, [], []⟩] :
          List ReasonBlock).map some ∧
    kg_tsepochka (List.replicate 32 0) 0
      [⟨0, 5, List.replicate 32 0, List.replicate 32 0, [], []⟩,
       ⟨1, 6, List.replicate 32 0, List.replicate 32 0, [], []⟩] :=
  ⟨by decide,
   C4_tsepochka_zhurnala (fun _ _ => List.replicate 32 0) [7]
     [([], [], 5), ([], [], 6)]
     [⟨0, 5, List.replicate 32 0, List.replicate 32 0, [], []⟩,
      ⟨1, 6, List.replicate 32 0, List.replicate 32 0, [], []⟩] (by decide)⟩

/-- C3: `kg_append` increments `next_index` before validating its
inputs and no failure path restores it — an event text of 33 bytes
cannot be digit-encoded into the 96-digit field, the call fails, yet
`next_index` has advanced from 0 to 1. -/
theorem C3_indeks_prodvinulsya_pri_otkaze :
    (kg_append hmac_model [7] kg_svezhij (List.replicate 33 97) [] 5).1 = none ∧
    (kg_append hmac_model [7] kg_svezhij (List.replicate 33 97) [] 5).2.next_index =
      kg_svezhij.next_index + 1 := by decide

/-- A concrete one-record ledger produced by `kg_append` under the
stand-in tag function: the file bytes of the single written line. -/
def kg_fajl_primer : List Nat :=
  (kg_append hmac_model [7] kg_svezhij [97] [98] 5).2.stroki.flatten

/-- C1: falsified as stated.  The `%02x` parsing of the hex fields is
case-insensitive, so flipping the lowercase hex letter at byte 69 of a
valid one-record file to its uppercase form changes the file byte but
leaves the parsed record — and both `kg_verify_file` (still `ok`) and
`kg_replay` (still visits the record) — unchanged. -/
theorem C1_kontrprimer_registr_hex :
    kg_fajl_primer.getD 69 0 = 99 ∧
    kg_verify_file hmac_model [7] kg_fajl_primer = .ok ∧
    kg_verify_file hmac_model [7] (kg_fajl_primer.set 69 67) = .ok ∧
    (kg_replay hmac_model [7] (kg_fajl_primer.set 69 67)).2 = .ok ∧
    (kg_replay hmac_model [7] (kg_fajl_primer.set 69 67)).1.length = 1 := by
  set_option maxRecDepth 100000 in decide

/-- Soundness of line acceptance: any record `razobrat_stroku` accepts
carries the expected chain index, the expected `prev_hash`, and an
HMAC tag that equals the tag recomputed over its serialized content. -/
theorem razobrat_stroku_zvukost (H : List Nat → List Nat → List Nat)
    (klyuch stroka ozhidaemyj_prev : List Nat) (ozhidaemyj_indeks : Nat)
    (blok : ReasonBlock)
    (h : razobrat_stroku H klyuch stroka ozhidaemyj_prev ozhidaemyj_indeks =
      some blok) :
    blok.index = ozhidaemyj_indeks ∧ blok.prev_hash = ozhidaemyj_prev ∧
    H klyuch (sobrat_paket blok) = blok.hmac := by
  unfold razobrat_stroku at h
  simp only [Option.pure_def, Option.bind_eq_bind] at h
  cases h0 : razobrat_polya stroka with
  | none => rw [h0] at h; simp at h
  | some polya =>
  rw [h0, Option.some_bind] at h
  cases h1 : preobrazovat_ascii_v_cifry polya.sobytie 96 with
  | none => rw [h1] at h; simp at h
  | some event_digits =>
  rw [h1, Option.some_bind] at h
  cases h2 : preobrazovat_ascii_v_cifry polya.nagruzka 768 with
  | none => rw [h2] at h; simp at h
  | some payload_digits =>
  rw [h2, Option.some_bind] at h
  split at h
  · simp at h
  · rename_i hidx
    cases h3 : preobrazovat_hex_v_bajty polya.pred_hex 32 with
    | none => rw [h3] at h; simp at h
    | some prev =>
    rw [h3, Option.some_bind] at h
    cases h4 : preobrazovat_hex_v_bajty polya.hmac_hex 32 with
    | none => rw [h4] at h; simp at h
    | some hm =>
    rw [h4, Option.some_bind] at h
    split at h
    · simp at h
    · rename_i hprev
      split at h
      · simp at h
      · split at h
        · simp at h
        · rename_i hlen hvych
          rw [Option.some.injEq] at h
          subst h
          push_neg at hidx hprev hvych
          exact ⟨hidx, hprev, hvych⟩

/-- The verify loop is the replay loop's verdict (the visitor always
accepts). -/
theorem kg_proverit_kak_replay (H : List Nat → List Nat → List Nat)
    (klyuch : List Nat) (stroki : List (List Nat)) :
    ∀ prev idx, kg_proverit_stroki H klyuch prev idx stroki =
      (kg_replay_stroki H klyuch prev idx stroki).2 := by
  induction stroki with
  | nil => intro prev idx; rfl
  | cons stroka rest ih =>
    intro prev idx
    simp only [kg_proverit_stroki, kg_replay_stroki]
    cases razobrat_stroku H klyuch stroka prev idx with
    | none => rfl
    | some blok => exact ih blok.hmac (blok.index + 1)

/-- Chain-state bookkeeping: consuming one record shifts the running
tip. -/
theorem kg_konets_prev_cons (prev : List Nat) (b : ReasonBlock)
    (bs : List ReasonBlock) :
    kg_konets_prev prev (b :: bs) = kg_konets_prev b.hmac bs := by
  simp only [kg_konets_prev, List.map_cons, List.getLastD_cons]

/-- Chain-state bookkeeping: consuming one record shifts the expected
index. -/
theorem kg_konets_idx_cons (idx : Nat) (b : ReasonBlock)
    (bs : List ReasonBlock) :
    kg_konets_idx idx (b :: bs) = kg_konets_idx (b.index + 1) bs := by
  cases bs with
  | nil => rfl
  | cons b2 bs2 =>
    simp only [kg_konets_idx, List.getLast?_cons_cons]
    cases hl : (b2 :: bs2).getLast? with
    | none => simp at hl
    | some x => rfl

/-- Splitting the replay loop around a clean prefix: after the prefix's
records the loop continues from the prefix's final tip and index. -/
theorem kg_replay_stroki_soedinenie (H : List Nat → List Nat → List Nat)
    (klyuch : List Nat) (L1 : List (List Nat)) :
    ∀ prev idx bs, kg_replay_stroki H klyuch prev idx L1 = (bs, .ok) →
    ∀ L2, kg_replay_stroki H klyuch prev idx (L1 ++ L2) =
      (bs ++ (kg_replay_stroki H klyuch (kg_konets_prev prev bs)
          (kg_konets_idx idx bs) L2).1,
       (kg_replay_stroki H klyuch (kg_konets_prev prev bs)
          (kg_konets_idx idx bs) L2).2) := by
  induction L1 with
  | nil =>
    intro prev idx bs h L2
    simp only [kg_replay_stroki, Prod.mk.injEq] at h
    obtain ⟨h1, _⟩ := h
    subst h1
    simp [kg_konets_prev, kg_konets_idx]
  | cons stroka rest ih =>
    intro prev idx bs h L2
    simp only [kg_replay_stroki] at h
    cases hr : razobrat_stroku H klyuch stroka prev idx with
    | none => rw [hr] at h; simp at h
    | some b =>
      rw [hr] at h
      dsimp only at h
      rcases hpar : kg_replay_stroki H klyuch b.hmac (b.index + 1) rest with ⟨bs', r⟩
      rw [hpar] at h
      simp only [Prod.mk.injEq] at h
      obtain ⟨hbs, hr2⟩ := h
      subst hr2
      subst hbs
      rw [List.cons_append]
      rw [kg_konets_prev_cons, kg_konets_idx_cons]
      simp only [kg_replay_stroki, hr]
      rw [ih b.hmac (b.index + 1) bs' hpar L2]
      simp

/-- C1 (amended): a single-byte change is detected exactly when it
changes what some line parses to.  If, after a clean prefix of `bs`
records, the next line no longer parses at its chain position,
`kg_verify_file` reports corrupt and `kg_replay` invokes the visitor
only on the prefix records; and any line that IS accepted there must
carry the expected index, the expected `prev_hash`, and an HMAC tag
equal to the tag recomputed over its parsed content — so a content
change survives only as an HMAC collision, while a byte change that
parses identically (e.g. a hex-case flip) is not detected. -/
theorem C1_amended_obnaruzhenie_porchi (H : List Nat → List Nat → List Nat)
    (klyuch fajl : List Nat) (pered : List (List Nat)) (bs : List ReasonBlock)
    (stroka : List Nat) (hvost : List (List Nat))
    (hlines : kg_stroki_fajla fajl = pered ++ stroka :: hvost)
    (hpered : kg_replay_stroki H klyuch (List.replicate 32 0) 0 pered = (bs, .ok)) :
    (razobrat_stroku H klyuch stroka (kg_konets_prev (List.replicate 32 0) bs)
        (kg_konets_idx 0 bs) = none →
      kg_verify_file H klyuch fajl = .corrupt ∧
      kg_replay H klyuch fajl = (bs, .corrupt)) ∧
    (∀ b, razobrat_stroku H klyuch stroka (kg_konets_prev (List.replicate 32 0) bs)
        (kg_konets_idx 0 bs) = some b →
      b.index = kg_konets_idx 0 bs ∧
      b.prev_hash = kg_konets_prev (List.replicate 32 0) bs ∧
      H klyuch (sobrat_paket b) = b.hmac) := by
  constructor
  · intro hn
    have hsplit := kg_replay_stroki_soedinenie H klyuch pered (List.replicate 32 0)
      0 bs hpered (stroka :: hvost)
    have htail : kg_replay_stroki H klyuch (kg_konets_prev (List.replicate 32 0) bs)
        (kg_konets_idx 0 bs) (stroka :: hvost) = ([], .corrupt) := by
      simp only [kg_replay_stroki, hn]
    rw [htail] at hsplit
    simp only [List.append_nil] at hsplit
    constructor
    · unfold kg_verify_file
      rw [kg_proverit_kak_replay, hlines, hsplit]
    · unfold kg_replay
      rw [hlines, hsplit]
  · intro b hb
    exact razobrat_stroku_zvukost H klyuch stroka _ _ b hb

/-- Witness for the amended C1: a file holding a single newline — its
one line parses to nothing, so verify is corrupt and replay visits no
record. -/
theorem C1_amended_obnaruzhenie_porchi_witness :
    (kg_stroki_fajla [10] = [] ++ [10] :: [] ∧
     kg_replay_stroki (fun _ _ => List.replicate 32 0) [7]
       (List.replicate 32 0) 0 [] = ([], .ok)) ∧
    ((razobrat_stroku (fun _ _ => List.replicate 32 0) [7] [10]
        (kg_konets_prev (List.replicate 32 0) [])
        (kg_konets_idx 0 []) = none →
      kg_verify_file (fun _ _ => List.replicate 32 0) [7] [10] = .corrupt ∧
      kg_replay (fun _ _ => List.replicate 32 0) [7] [10] = ([], .corrupt)) ∧
    (∀ b, razobrat_stroku (fun _ _ => List.replicate 32 0) [7] [10]
        (kg_konets_prev (List.replicate 32 0) [])
        (kg_konets_idx 0 []) = some b →
      b.index = kg_konets_idx 0 [] ∧
      b.prev_hash = kg_konets_prev (List.replicate 32 0) [] ∧
      (fun _ _ => List.replicate 32 0) [7] (sobrat_paket b) = b.hmac)) :=
  ⟨⟨by decide, by decide⟩,
   C1_amended_obnaruzhenie_porchi (fun _ _ => List.replicate 32 0) [7] [10]
     [] [] [10] [] (by decide) (by decide)⟩
